import Mathlib

/-!
Verification of the wg-dynamic protocol codec and client
(`mdlayher/wgdynamic-go`).

The development shallowly embeds the repository's key/value codec
(`kvParser`), the `request_ip` command encoder/decoder
(`sendRequestIP`, `parse`, `parseRequestIP`) and the client response
pipeline (`Client.RequestIP`), together with the parts of Go's standard
`net`, `strconv` and `time` packages those functions rely on
(`net.ParseCIDR`, `net.IPNet.String`, `net.IP.To4`, `net.CIDRMask`,
`strconv.Atoi`, line scanning).  Byte strings are `List Char`, Go byte
slices are `List Nat` (each entry < 256), `time.Time` is an instant as
Unix seconds plus nanoseconds, and `time.Duration` is an `Int` count of
nanoseconds.
-/

set_option linter.unusedVariables false

namespace Wgdynamic

/-! ## Basic text utilities -/

/-- Split a character list at every occurrence of `c`
(Go `strings.Split(s, string(c))`). -/
def splitOnChar (c : Char) : List Char → List (List Char)
  | [] => [[]]
  | x :: xs =>
    if x = c then [] :: splitOnChar c xs
    else
      match splitOnChar c xs with
      | [] => [[x]]
      | p :: ps => (x :: p) :: ps

/-- Drop a trailing carriage return (Go `bufio.dropCR`). -/
def dropCR (l : List Char) : List Char :=
  if l.getLast? = some '\r' then l.dropLast else l

/-- The token stream produced by `bufio.Scanner` with `bufio.ScanLines`:
newline-separated tokens, a final token only when the input does not end
with a newline, carriage returns before newlines stripped. -/
def splitLines (s : List Char) : List (List Char) :=
  let parts := splitOnChar '\n' s
  (if parts.getLast? = some [] then parts.dropLast else parts).map dropCR

/-- Join lines, terminating each with a newline (inverse image of
`splitLines` used to state lemmas about encoded messages). -/
def encodeLines (ls : List (List Char)) : List Char :=
  ls.foldr (fun l acc => l ++ '\n' :: acc) []

/-- Index of the first occurrence of `c` (Go `strings.IndexByte`). -/
def indexOfChar (c : Char) : List Char → Option Nat
  | [] => none
  | x :: xs => if x = c then some 0 else (indexOfChar c xs).map (· + 1)

/-- Index of the last occurrence of `c` (Go `strings.LastIndexByte`). -/
def lastIndexOfChar (c : Char) (s : List Char) : Option Nat :=
  match indexOfChar c s.reverse with
  | none => none
  | some i => some (s.length - 1 - i)

/-! ## Decimal and hexadecimal digits -/

/-- Decimal digit character. -/
def decDigitChar (n : Nat) : Char := Char.ofNat ('0'.toNat + n)

/-- Lowercase hexadecimal digit character (Go `hexDigit` table). -/
def hexDigitChar (n : Nat) : Char :=
  if n < 10 then decDigitChar n else Char.ofNat ('a'.toNat + (n - 10))

/-- Value of a decimal digit character. -/
def decVal (c : Char) : Option Nat :=
  if '0' ≤ c ∧ c ≤ '9' then some (c.toNat - '0'.toNat) else none

/-- Value of a hexadecimal digit character (either case). -/
def hexVal (c : Char) : Option Nat :=
  if '0' ≤ c ∧ c ≤ '9' then some (c.toNat - '0'.toNat)
  else if 'a' ≤ c ∧ c ≤ 'f' then some (c.toNat - 'a'.toNat + 10)
  else if 'A' ≤ c ∧ c ≤ 'F' then some (c.toNat - 'A'.toNat + 10)
  else none

/-- Digits of `n` base 10, most significant first (fuelled; any fuel
above `n` is enough). -/
def toDigitsDecF : Nat → Nat → List Nat
  | 0, _ => []
  | f + 1, n => if n < 10 then [n] else toDigitsDecF f (n / 10) ++ [n % 10]

/-- Digits of `n` base 10, most significant first. -/
def toDigitsDec (n : Nat) : List Nat := toDigitsDecF (n + 1) n

/-- Digits of `n` base 16, most significant first (fuelled). -/
def toDigitsHexF : Nat → Nat → List Nat
  | 0, _ => []
  | f + 1, n => if n < 16 then [n] else toDigitsHexF f (n / 16) ++ [n % 16]

/-- Digits of `n` base 16, most significant first. -/
def toDigitsHex (n : Nat) : List Nat := toDigitsHexF (n + 1) n

/-- Decimal representation of a natural number (Go `uitoa`). -/
def uitoa (n : Nat) : List Char := (toDigitsDec n).map decDigitChar

/-- Decimal representation of an integer (Go `fmt.Sprintf` with the `d`
verb / `strconv.Itoa`). -/
def itoa (i : Int) : List Char :=
  if i < 0 then '-' :: uitoa i.natAbs else uitoa i.toNat

/-- Minimal-length lowercase hexadecimal representation
(Go `net.appendHex`). -/
def hexStr (n : Nat) : List Char := (toDigitsHex n).map hexDigitChar

/-- Two hex digits per byte (Go `net.hexString` via `hexDigit`). -/
def bytesHexStr (bs : List Nat) : List Char :=
  bs.foldr (fun b acc => hexDigitChar (b / 16 % 16) :: hexDigitChar (b % 16) :: acc) []

/-- Overflow cutoff of Go `net`'s `dtoi`/`xtoi` helpers. -/
def big : Nat := 0xFFFFFF

/-- Loop of Go `net.dtoi`: consume decimal digits, accumulating the value;
overflow at `big` aborts with `ok = false` (result `big`). -/
def dtoiLoop : List Char → Nat → Nat → Nat × Nat × Bool
  | [], n, i => (n, i, true)
  | c :: rest, n, i =>
    match decVal c with
    | none => (n, i, true)
    | some d =>
      let n' := n * 10 + d
      if n' ≥ big then (big, i, false)
      else dtoiLoop rest n' (i + 1)

/-- Go `net.dtoi`: decimal prefix value, characters consumed, success. -/
def dtoi (s : List Char) : Nat × Nat × Bool :=
  match dtoiLoop s 0 0 with
  | (n, i, true) => if i = 0 then (0, 0, false) else (n, i, true)
  | (n, i, false) => (n, i, false)

/-- Loop of Go `net.xtoi`: consume hexadecimal digits; overflow at `big`
aborts with `ok = false` (result `0`). -/
def xtoiLoop : List Char → Nat → Nat → Nat × Nat × Bool
  | [], n, i => (n, i, true)
  | c :: rest, n, i =>
    match hexVal c with
    | none => (n, i, true)
    | some d =>
      let n' := n * 16 + d
      if n' ≥ big then (0, i, false)
      else xtoiLoop rest n' (i + 1)

/-- Go `net.xtoi`: hexadecimal prefix value, characters consumed, success. -/
def xtoi (s : List Char) : Nat × Nat × Bool :=
  match xtoiLoop s 0 0 with
  | (n, i, true) => if i = 0 then (0, 0, false) else (n, i, true)
  | (n, i, false) => (n, i, false)

/-- All-decimal-digit parse of a non-empty string, the digit phase of
Go `strconv.Atoi` (the 64-bit range check is not modelled; the values in
this protocol are far below it). -/
def parseDecAll : List Char → Option Nat
  | [] => none
  | s => (s.mapM decVal).map (·.foldl (fun a d => a * 10 + d) 0)

/-- Go `strconv.Atoi`: optional sign, then decimal digits, nothing else. -/
def atoi : List Char → Option Int
  | [] => none
  | c :: rest =>
    if c = '-' then (parseDecAll rest).map (fun n => -(n : Int))
    else if c = '+' then (parseDecAll rest).map (fun n => (n : Int))
    else (parseDecAll (c :: rest)).map (fun n => (n : Int))

/-! ## Go `net`: IP addresses, CIDR parsing and formatting

An IP address (`net.IP`) is a list of byte values; 4 entries for the
IPv4 form, 16 for the IPv6 form.  A mask (`net.IPMask`) likewise. -/

/-- The IPv4-in-IPv6 marker bytes (Go `net.v4InV6Prefix`). -/
def v4in6 : List Nat := [0, 0, 0, 0, 0, 0, 0, 0, 0, 0, 0xff, 0xff]

/-- Go `net.IP.To4`: the 4-byte form of an address, when it represents an
IPv4 address; `none` otherwise (Go returns `nil`). -/
def to4 (ip : List Nat) : Option (List Nat) :=
  if ip.length = 4 then some ip
  else if ip.length = 16 ∧ ip.take 12 = v4in6 then some (ip.drop 12)
  else none

/-- Go `net.CIDRMask`: a mask of `bits/8` bytes whose first `ones` bits
are set; empty (Go `nil`) unless `bits` is 32 or 128 and `ones ≤ bits`. -/
def cidrMaskAux : Nat → Nat → List Nat
  | n, 0 => []
  | n, l + 1 =>
    if n ≥ 8 then 0xff :: cidrMaskAux (n - 8) l
    else (255 - 255 / 2 ^ n) :: List.replicate l 0

/-- Go `net.CIDRMask`. -/
def cidrMask (ones bits : Nat) : List Nat :=
  if bits ≠ 8 * 4 ∧ bits ≠ 8 * 16 then []
  else if ones > bits then []
  else cidrMaskAux ones (bits / 8)

/-- Go `net.IP.Mask`: bytewise AND after aligning a 4-byte mask with a
16-byte IPv4-in-IPv6 address (and symmetrically); empty on length
mismatch (Go returns `nil`). -/
def maskIP (ip mask : List Nat) : List Nat :=
  let mask := if mask.length = 16 ∧ ip.length = 4 ∧ (mask.take 12).all (· = 0xff)
              then mask.drop 12 else mask
  let ip := if mask.length = 4 ∧ ip.length = 16 ∧ ip.take 12 = v4in6
            then ip.drop 12 else ip
  if ip.length ≠ mask.length then []
  else List.zipWith Nat.land ip mask

/-- Count of leading one bits of a byte and the left-shifted remainder,
the inner loop of Go `net.simpleMaskLength` (`for v&0x80 != 0`). -/
def countLeadingOnes : Nat → Nat → Nat × Nat
  | 0, v => (0, v)
  | f + 1, v =>
    if v % 256 ≥ 128 then
      let (k, r) := countLeadingOnes f (v * 2 % 256)
      (k + 1, r)
    else (0, v % 256)

/-- Go `net.simpleMaskLength`: the prefix length of a canonical
ones-then-zeros mask, `none` (Go `-1`) for any other mask. -/
def simpleMaskLength : List Nat → Option Nat
  | [] => some 0
  | v :: rest =>
    if v = 0xff then (simpleMaskLength rest).map (8 + ·)
    else
      let (k, r) := countLeadingOnes 8 v
      if r ≠ 0 then none
      else if rest.any (· ≠ 0) then none
      else some k

/-- Go `net.parseIPv4` field loop: `k` fields left to read, accumulated
field bytes in `acc`.  Rejects empty fields, values above 255 and extra
leading zeros, and requires a dot before every field but the first. -/
def parseIPv4Aux : Nat → List Char → List Nat → Option (List Nat)
  | 0, s, acc => if s = [] then some acc else none
  | k + 1, s, acc =>
    if s = [] then none
    else
      match (if acc.length = 0 then some s
             else match s with
               | '.' :: r => some r
               | _ => none) with
      | none => none
      | some s1 =>
        if ¬(dtoi s1).2.2 ∨ (dtoi s1).1 > 0xFF then none
        else if (dtoi s1).2.1 > 1 ∧ s1.head? = some '0' then none
        else parseIPv4Aux k (s1.drop (dtoi s1).2.1) (acc ++ [(dtoi s1).1])

/-- Go `net.parseIPv4`: dotted decimal to the 16-byte IPv4-in-IPv6 form
(Go's `IPv4(a, b, c, d)` constructor). -/
def parseIPv4 (s : List Char) : Option (List Nat) :=
  (parseIPv4Aux 4 s []).map (v4in6 ++ ·)

/-- Go `net.parseIPv6` main loop over the remaining input `s`, with the
bytes decoded so far in `acc` and the byte position of a `::` marker (if
seen) in `ell`.  Returns the final byte accumulator and marker, or
`none` on a syntax error.  Fuelled; each iteration consumes at least one
character, so any fuel above the input length is enough. -/
def parseIPv6LoopF : Nat → List Char → List Nat → Option Nat →
    Option (List Nat × Option Nat)
  | 0, _, _, _ => none
  | f + 1, s, acc, ell =>
    if acc.length ≥ 16 then (if s = [] then some (acc, ell) else none)
    else
      match xtoi s with
      | (n, c, ok) =>
        if ¬ok ∨ n > 0xFFFF then none
        else if (s.drop c).head? = some '.' then
          if ell = none ∧ acc.length ≠ 12 then none
          else if acc.length + 4 > 16 then none
          else match parseIPv4 s with
            | none => none
            | some ip4 => some (acc ++ ip4.drop 12, ell)
        else
          let acc1 := acc ++ [n / 256, n % 256]
          if s.drop c = [] then some (acc1, ell)
          else if (s.drop c).head? ≠ some ':' ∨ (s.drop c).length = 1 then none
          else if ((s.drop c).drop 1).head? = some ':' then
            if ell.isSome then none
            else if (s.drop c).drop 2 = [] then some (acc1, some acc1.length)
            else parseIPv6LoopF f ((s.drop c).drop 2) acc1 (some acc1.length)
          else parseIPv6LoopF f ((s.drop c).drop 1) acc1 ell

/-- Go `net.parseIPv6` main loop, with enough fuel for its input. -/
def parseIPv6Loop (s : List Char) (acc : List Nat) (ell : Option Nat) :
    Option (List Nat × Option Nat) :=
  parseIPv6LoopF (s.length + 1) s acc ell

/-- Final assembly of Go `net.parseIPv6`: expand a `::` marker into the
missing zero bytes; a full 16-byte parse must not also contain `::`. -/
def parseIPv6Finish : Option (List Nat × Option Nat) → Option (List Nat)
  | none => none
  | some (acc, ell) =>
    if acc.length < 16 then
      match ell with
      | none => none
      | some e => some (acc.take e ++ List.replicate (16 - acc.length) 0 ++ acc.drop e)
    else
      match ell with
      | none => some acc
      | some _ => none

/-- Go `net.parseIPv6`: the leading `::` special case, the main loop, and
the final expansion of a `::` marker into zero bytes. -/
def parseIPv6 (s : List Char) : Option (List Nat) :=
  match s with
  | ':' :: ':' :: rest =>
    if rest = [] then some (List.replicate 16 0)
    else parseIPv6Finish (parseIPv6Loop rest [] (some 0))
  | _ => parseIPv6Finish (parseIPv6Loop s [] none)

/-- Go `net.splitHostZone`: strip a `%zone` suffix (last `%`, only at a
positive index). -/
def stripZone (s : List Char) : List Char :=
  match lastIndexOfChar '%' s with
  | some i => if i > 0 then s.take i else s
  | none => s

/-- Go `net.parseIPv6Zone`, as used by `ParseCIDR` (the zone itself is
discarded there). -/
def parseIPv6Zone (s : List Char) : Option (List Nat) :=
  parseIPv6 (stripZone s)

/-- An address with a mask (Go `net.IPNet`). -/
structure IPNet where
  ip : List Nat
  mask : List Nat
  deriving DecidableEq, Repr

/-- Go `net.ParseCIDR`: split at the first `/`, parse the address
(IPv4 form first, then IPv6), parse the prefix length, and return the
address together with the masked network.  (Go computes the mask once
with `iplen` set to 4 or 8 bytes; here the two address branches each
apply their own length.) -/
def parseCIDR (s : List Char) : Option (List Nat × IPNet) :=
  match indexOfChar '/' s with
  | none => none
  | some i =>
    match parseIPv4 (s.take i) with
    | some ip =>
      if ¬(dtoi (s.drop (i + 1))).2.2 ∨ (dtoi (s.drop (i + 1))).2.1 ≠ (s.drop (i + 1)).length
          ∨ (dtoi (s.drop (i + 1))).1 > 8 * 4 then none
      else
        some (ip, ⟨maskIP ip (cidrMask (dtoi (s.drop (i + 1))).1 (8 * 4)),
                   cidrMask (dtoi (s.drop (i + 1))).1 (8 * 4)⟩)
    | none =>
      match parseIPv6Zone (s.take i) with
      | none => none
      | some ip =>
        if ¬(dtoi (s.drop (i + 1))).2.2 ∨ (dtoi (s.drop (i + 1))).2.1 ≠ (s.drop (i + 1)).length
            ∨ (dtoi (s.drop (i + 1))).1 > 8 * 16 then none
        else
          some (ip, ⟨maskIP ip (cidrMask (dtoi (s.drop (i + 1))).1 (8 * 16)),
                     cidrMask (dtoi (s.drop (i + 1))).1 (8 * 16)⟩)

/-! ### IP and IPNet formatting -/

/-- Join chunks with a separator character. -/
def intercalateChar (c : Char) : List (List Char) → List Char
  | [] => []
  | [x] => x
  | x :: xs => x ++ c :: intercalateChar c xs

/-- The 16-bit groups of a 16-byte IPv6 address. -/
def groupsOf : List Nat → List Nat
  | b0 :: b1 :: rest => (b0 * 256 + b1) :: groupsOf rest
  | _ => []

/-- The bytes of a list of 16-bit groups (inverse of `groupsOf` on
even-length byte lists; used to state round-trip lemmas). -/
def bytesOfGroups : List Nat → List Nat
  | [] => []
  | g :: gs => g / 256 :: g % 256 :: bytesOfGroups gs

/-- Hex groups joined by `:` (the building block of `formatIPv6`). -/
def tailStr (gs : List Nat) : List Char := intercalateChar ':' (gs.map hexStr)

/-- Leading count of zero entries. -/
def countZeroGroups : List Nat → Nat
  | 0 :: rest => countZeroGroups rest + 1
  | _ => 0

/-- Length of a candidate zero run. -/
def runLen : Option (Nat × Nat) → Nat
  | none => 0
  | some (a, b) => b - a

/-- Scan for the leftmost longest run of zero groups (the `e0`/`e1` loop
of Go `net.IP.String`), in group units.  Fuelled; any fuel above the
list length is enough. -/
def bestRunAuxF : Nat → List Nat → Nat → Option (Nat × Nat) → Option (Nat × Nat)
  | 0, _, _, best => best
  | _, [], _, best => best
  | f + 1, g :: rest, i, best =>
    let j := countZeroGroups (g :: rest)
    if j > 0 ∧ j > runLen best then
      bestRunAuxF f ((g :: rest).drop j) (i + j) (some (i, i + j))
    else bestRunAuxF f rest (i + 1) best

/-- The zero-run scan with enough fuel for its input. -/
def bestRunAux (gs : List Nat) (i : Nat) (best : Option (Nat × Nat)) :
    Option (Nat × Nat) :=
  bestRunAuxF (gs.length + 1) gs i best

/-- Zero-run selection of Go `net.IP.String`: runs of a single group are
not compressed. -/
def bestRun (gs : List Nat) : Option (Nat × Nat) :=
  match bestRunAux gs 0 none with
  | none => none
  | some (a, b) => if b - a ≤ 1 then none else some (a, b)

/-- RFC 5952 output of Go `net.IP.String` for a 16-byte address: hex
groups separated by `:`, the best zero run compressed to `::`. -/
def formatIPv6 (p : List Nat) : List Char :=
  let g := groupsOf p
  match bestRun g with
  | none => intercalateChar ':' (g.map hexStr)
  | some (e0, e1) =>
    intercalateChar ':' ((g.take e0).map hexStr) ++ ':' :: ':' ::
      intercalateChar ':' ((g.drop e1).map hexStr)

/-- Dotted-decimal output of Go `net.IP.String` for the 4-byte form. -/
def formatIPv4 (p : List Nat) : List Char :=
  intercalateChar '.' (p.map uitoa)

/-- Go `net.IP.String`. -/
def ipString (ip : List Nat) : List Char :=
  if ip = [] then "<nil>".data
  else match to4 ip with
    | some p4 => formatIPv4 p4
    | none =>
      if ip.length ≠ 16 then '?' :: bytesHexStr ip
      else formatIPv6 ip

/-- Go `net.networkNumberAndMask`: the 4-byte address form when the
address is IPv4, with the mask cut down to match. -/
def networkNumberAndMask (n : IPNet) : Option (List Nat × List Nat) :=
  let ipq : Option (List Nat) :=
    match to4 n.ip with
    | some p => some p
    | none => if n.ip.length ≠ 16 then none else some n.ip
  match ipq with
  | none => none
  | some ip =>
    if n.mask.length = 4 then
      if ip.length ≠ 4 then none else some (ip, n.mask)
    else if n.mask.length = 16 then
      if ip.length = 4 then some (ip, n.mask.drop 12) else some (ip, n.mask)
    else none

/-- Go `net.IPMask.String`: plain hex, `<nil>` when empty. -/
def maskString (m : List Nat) : List Char :=
  if m = [] then "<nil>".data else bytesHexStr m

/-- Go `net.IPNet.String`: address, `/`, and either the prefix length or
(for a non-canonical mask) the hex mask. -/
def ipnetString (n : IPNet) : List Char :=
  match networkNumberAndMask n with
  | none => "<nil>".data
  | some (nn, m) =>
    match simpleMaskLength m with
    | none => ipString nn ++ '/' :: maskString m
    | some l => ipString nn ++ '/' :: uitoa l

/-! ## Go `time`: instants and durations

Only what the codec touches: `time.Time` compares by instant (go-cmp
uses `time.Time.Equal`), `time.Unix` builds an instant from Unix
seconds, `IsZero` recognises the zero value (January 1, year 1, which is
Unix second -62135596800), and `Duration` is a nanosecond count whose
`Seconds` value truncated to `int` is integer division by 10⁹ (exact for
the whole-second durations this protocol carries). -/

/-- An instant: Unix seconds and nanoseconds (`time.Time` up to
`time.Time.Equal`). -/
structure GoTime where
  sec : Int
  nsec : Int
  deriving DecidableEq, Repr

/-- The zero `time.Time` as an instant. -/
def zeroTime : GoTime := ⟨-62135596800, 0⟩

/-- Go `time.Unix(sec, nsec)` as an instant. -/
def timeUnix (sec nsec : Int) : GoTime := ⟨sec, nsec⟩

/-- Go `time.Time.Unix()`. -/
def unixOf (t : GoTime) : Int := t.sec

/-- Go `time.Time.IsZero()`. -/
def isZeroTime (t : GoTime) : Bool := t = zeroTime

/-- Nanoseconds per second: `time.Second` as a `time.Duration`. -/
def nsPerSec : Int := 1000000000

/-- Go `int(d.Seconds())` for a non-negative whole-second duration:
truncating division by 10⁹ (the float64 detour is exact there). -/
def durSeconds (d : Int) : Int := d / nsPerSec

/-! ## The wgdynamic data model and error taxonomy -/

/-- `RequestIP` (src/command.go): optional IPv4/IPv6 CIDR values, lease
start time, lease duration in nanoseconds. -/
structure RequestIP where
  ipv4 : Option IPNet
  ipv6 : Option IPNet
  leaseStart : GoTime
  leaseTime : Int
  deriving DecidableEq, Repr

/-- The zero-valued `RequestIP`. -/
def emptyRequestIP : RequestIP := ⟨none, none, zeroTime, 0⟩

/-- Local decode faults recorded in `kvParser.err`, tagged with the
offending text so distinct faults are distinguishable. -/
inductive ParseFault
  | malformedPair (line : List Char)
  | badAtoi (v : List Char)
  | badCIDR (v : List Char)
  | badFamily4 (v : List Char)
  | badFamily6 (v : List Char)
  deriving DecidableEq, Repr

/-- The protocol `Error` struct (number, message) accumulated from
`errno`/`errmsg` pairs. -/
structure WErr where
  number : Int
  message : List Char
  deriving DecidableEq, Repr

/-- Errors surfaced by the codec and the client: an underlying stream
read fault (abstract id), a local decode fault, the in-band protocol
error, or the client's malformed-response (command mismatch) error. -/
inductive GoError
  | scanErr (id : Nat)
  | parseErr (e : ParseFault)
  | protocolErr (number : Int) (message : List Char)
  | malformedResponse
  deriving DecidableEq, Repr

instance : DecidableEq (Except GoError RequestIP) := fun x y =>
  match x, y with
  | .error a, .error b =>
    if h : a = b then isTrue (by rw [h]) else isFalse (by simp [h])
  | .ok a, .ok b =>
    if h : a = b then isTrue (by rw [h]) else isFalse (by simp [h])
  | .error a, .ok b => isFalse (by simp)
  | .ok a, .error b => isFalse (by simp)

/-- Is this error the `*wgdynamic.Error` protocol-error type? -/
def isProtocolError : Option GoError → Bool
  | some (.protocolErr _ _) => true
  | _ => false

/-! ## The kvParser (src/client_test.go lines 377-499) -/

/-- Parser state: the scanner (remaining line tokens, a pending read
fault surfaced once the tokens are exhausted, and whether the scanner
has hit that point), the sticky decode fault `err`, the accumulated
protocol error `werr`, and the current pair `k`/`v`. -/
structure KVParser where
  lines : List (List Char)
  readErr : Option Nat
  tripped : Bool
  err : Option ParseFault
  werr : WErr
  k : List Char
  v : List Char
  deriving DecidableEq, Repr

/-- `newKVParser`: a fresh parser over a token stream. -/
def newKVParser (lines : List (List Char)) (readErr : Option Nat) : KVParser :=
  ⟨lines, readErr, false, none, ⟨0, []⟩, [], []⟩

/-- `bufio.Scanner.Err` for the modelled scanner. -/
def scannerErr (p : KVParser) : Option Nat :=
  if p.tripped then p.readErr else none

/-- `kvParser.Int`: parse the current value as an integer
(`strconv.Atoi`); returns 0 and records the fault on failure; returns 0
untouched when a fault is already recorded. -/
def kvInt (p : KVParser) : Int × KVParser :=
  if p.err.isSome then (0, p)
  else match atoi p.v with
    | some n => (n, p)
    | none => (0, { p with err := some (.badAtoi p.v) })

/-- `kvParser.String`: the current value, or empty once a fault is
recorded. -/
def kvString (p : KVParser) : List Char :=
  if p.err.isSome then [] else p.v

/-- `kvParser.IPNet`: parse the current value as a CIDR of the given
family (4 or 6).  `net.ParseCIDR` failure and address-family mismatch
(via `net.IP.To4` on the parsed network) record a fault; a recorded
fault short-circuits to `none`.  (Go panics on a family other than 4 or
6; the repository only calls it with the literals 4 and 6.) -/
def kvIPNet (family : Nat) (p : KVParser) : Option IPNet × KVParser :=
  if p.err.isSome then (none, p)
  else match parseCIDR p.v with
    | none => (none, { p with err := some (.badCIDR p.v) })
    | some (ip, ipn) =>
      if family = 4 then
        if to4 ipn.ip = none then (none, { p with err := some (.badFamily4 p.v) })
        else (some ipn, p)
      else if family = 6 then
        if (to4 ipn.ip).isSome then (none, { p with err := some (.badFamily6 p.v) })
        else (some ipn, p)
      else (none, p)

/-- The assignment `p.werr.Number = n`. -/
def setNumber (p : KVParser) (n : Int) : KVParser :=
  { p with werr := { p.werr with number := n } }

/-- The assignment `p.werr.Message = s`. -/
def setMessage (p : KVParser) (s : List Char) : KVParser :=
  { p with werr := { p.werr with message := s } }

/-- `kvParser.Next` (src/client_test.go lines 393-420): pop the next
token; stop at end of input or an empty line; split on `=`; a line
without exactly one `=` records a malformed-pair fault; `errno`/`errmsg`
pairs update the accumulated protocol error and recurse.  Fuelled; each
recursion step consumes a token, so any fuel above the token count is
enough. -/
def kvNextF : Nat → KVParser → Bool × KVParser
  | 0, p => (false, p)
  | f + 1, p =>
    match p.lines with
    | [] => (false, { p with tripped := true })
    | line :: rest =>
      if line = [] then (false, { p with lines := rest })
      else
        match splitOnChar '=' line with
        | [k, v] =>
          if k = "errno".data then
            kvNextF f (setNumber (kvInt { p with lines := rest, k := k, v := v }).2
                                 (kvInt { p with lines := rest, k := k, v := v }).1)
          else if k = "errmsg".data then
            kvNextF f (setMessage { p with lines := rest, k := k, v := v }
                                  (kvString { p with lines := rest, k := k, v := v }))
          else (true, { p with lines := rest, k := k, v := v })
        | _ => (false, { p with lines := rest, err := some (.malformedPair line) })

/-- `kvParser.Next` with enough fuel for its token stream. -/
def kvNext (p : KVParser) : Bool × KVParser :=
  kvNextF (p.lines.length + 1) p

/-- `kvParser.Err` (src/client_test.go lines 482-499): scanner faults
first, then the sticky decode fault, then a non-zero accumulated
protocol error. -/
def kvErr (p : KVParser) : Option GoError :=
  match scannerErr p with
  | some e => some (.scanErr e)
  | none =>
    match p.err with
    | some e => some (.parseErr e)
    | none =>
      if p.werr.number ≠ 0 then some (.protocolErr p.werr.number p.werr.message)
      else none

/-! ## The request_ip command (src/command.go) -/

/-- One `key=value\n` line. -/
def kvLine (k v : List Char) : List Char := k ++ '=' :: v ++ ['\n']

/-- `sendRequestIP` (src/command.go lines 46-74): the encoded bytes of a
request_ip command.  A `nil` request is the bare command; otherwise the
command marker followed by each present optional field in fixed order
and a blank terminator line. -/
def sendRequestIP : Option RequestIP → List Char
  | none => "request_ip=1\n\n".data
  | some rip =>
    "request_ip=1\n".data
    ++ (match rip.ipv4 with
        | some n => "ipv4=".data ++ ipnetString n ++ ['\n']
        | none => [])
    ++ (match rip.ipv6 with
        | some n => "ipv6=".data ++ ipnetString n ++ ['\n']
        | none => [])
    ++ (if isZeroTime rip.leaseStart then []
        else "leasestart=".data ++ itoa (unixOf rip.leaseStart) ++ ['\n'])
    ++ (if rip.leaseTime > 0 then "leasetime=".data ++ itoa (durSeconds rip.leaseTime) ++ ['\n']
        else [])
    ++ ['\n']

/-- `parse` (src/command.go lines 101-109): read the first pair; on
failure surface `p.Err()` (which may itself be empty); on success hand
back the parser and the first key as the command. -/
def parseStart (lines : List (List Char)) (readErr : Option Nat) :
    Option GoError × KVParser × List Char :=
  let p := newKVParser lines readErr
  match kvNext p with
  | (true, p1) => (none, p1, p1.k)
  | (false, p1) => (kvErr p1, p1, [])

/-- Loop body of `parseRequestIP` (src/command.go lines 77-97): iterate
`Next`, populating fields by key; unknown keys are skipped.  Fuelled;
each iteration consumes at least one token. -/
def parseRequestIPLoopF : Nat → KVParser → RequestIP → KVParser × RequestIP
  | 0, p, rip => (p, rip)
  | f + 1, p, rip =>
    match kvNext p with
    | (false, p1) => (p1, rip)
    | (true, p1) =>
      if p1.k = "ipv4".data then
        parseRequestIPLoopF f (kvIPNet 4 p1).2 { rip with ipv4 := (kvIPNet 4 p1).1 }
      else if p1.k = "ipv6".data then
        parseRequestIPLoopF f (kvIPNet 6 p1).2 { rip with ipv6 := (kvIPNet 6 p1).1 }
      else if p1.k = "leasestart".data then
        parseRequestIPLoopF f (kvInt p1).2 { rip with leaseStart := timeUnix (kvInt p1).1 0 }
      else if p1.k = "leasetime".data then
        parseRequestIPLoopF f (kvInt p1).2 { rip with leaseTime := (kvInt p1).1 * nsPerSec }
      else parseRequestIPLoopF f p1 rip

/-- The `parseRequestIP` loop with enough fuel for its token stream. -/
def parseRequestIPLoop (p : KVParser) (rip : RequestIP) : KVParser × RequestIP :=
  parseRequestIPLoopF (p.lines.length + 1) p rip

/-- `parseRequestIP` (src/command.go lines 77-97): run the loop from the
zero value, then surface `p.Err()`. -/
def parseRequestIP (p : KVParser) : Except GoError RequestIP :=
  match parseRequestIPLoop p emptyRequestIP with
  | (p1, rip) =>
    match kvErr p1 with
    | some e => .error e
    | none => .ok rip

/-- The response half of `Client.RequestIP` (src/unnamed/part_001 lines
77-110): `parse` the stream, check the command is `request_ip`
(mismatch is the malformed-response error), then `parseRequestIP`. -/
def clientHandleResponse (lines : List (List Char)) (readErr : Option Nat) :
    Except GoError RequestIP :=
  match parseStart lines readErr with
  | (some e, _, _) => .error e
  | (none, p, cmd) =>
    if cmd ≠ "request_ip".data then .error .malformedResponse
    else
      match parseRequestIP p with
      | .error e => .error e
      | .ok rip => .ok rip

/-- The full observable behaviour of one `Client.RequestIP` exchange on
an established connection: the bytes written, and the decode of the
given response stream. -/
def clientExchange (req : Option RequestIP) (respLines : List (List Char))
    (readErr : Option Nat) : List Char × Except GoError RequestIP :=
  (sendRequestIP req, clientHandleResponse respLines readErr)

/-- Encode with `sendRequestIP`, then decode the produced bytes with
`parse` followed by `parseRequestIP` (the round-trip pipeline of the
spec). -/
def roundtripRequestIP (rip : RequestIP) : Option RequestIP :=
  match parseStart (splitLines (sendRequestIP (some rip))) none with
  | (some _, _, _) => none
  | (none, p, _) =>
    match parseRequestIP p with
    | .error _ => none
    | .ok out => some out

/-- Drive a parser to the end of iteration (`for p.Next() { }`),
fuelled. -/
def runKVF : Nat → KVParser → KVParser
  | 0, p => p
  | f + 1, p =>
    match kvNext p with
    | (false, p1) => p1
    | (true, p1) => runKVF f p1

/-- Drive a parser to the end of iteration with enough fuel. -/
def runKV (p : KVParser) : KVParser :=
  runKVF (p.lines.length + 1) p


/-! ## Canonical values and specification-side helpers -/

/-- A canonical IPv4 network value: 4-byte address, a CIDR mask for some
prefix length, and no host bits below the mask.  These are exactly the
`*net.IPNet` values (in 4-byte form) that `net.ParseCIDR` itself
produces for IPv4 input. -/
def canonical4 (n : IPNet) : Bool :=
  n.ip.length == 4 && n.ip.all (· < 256) &&
  (List.range 33).any (fun k => n.mask == cidrMask k 32) &&
  maskIP n.ip n.mask == n.ip

/-- A canonical IPv6 network value: 16-byte address not representable as
IPv4, a CIDR mask for some prefix length, and no host bits below the
mask. -/
def canonical6 (n : IPNet) : Bool :=
  n.ip.length == 16 && n.ip.all (· < 256) && (to4 n.ip).isNone &&
  (List.range 129).any (fun k => n.mask == cidrMask k 128) &&
  maskIP n.ip n.mask == n.ip

/-- A `RequestIP` whose present fields are canonically representable on
the wire: canonical networks, a whole-second lease start, and a lease
time that is absent (zero) or a positive whole number of seconds. -/
def canonicalRequestIP (r : RequestIP) : Bool :=
  (match r.ipv4 with | some n => canonical4 n | none => true) &&
  (match r.ipv6 with | some n => canonical6 n | none => true) &&
  r.leaseStart.nsec == 0 &&
  (r.leaseTime == 0 || (r.leaseTime > 0 && r.leaseTime % nsPerSec == 0))

/-- Specification-side reading of a message body: does some line parse
as an `errno` pair with a non-zero integer value?  (The wording of the
round-trip claim about protocol errors.) -/
def hasNonzeroErrno (body : List (List Char)) : Bool :=
  body.any (fun l =>
    match splitOnChar '=' l with
    | [k, v] => k == "errno".data && ((atoi v).getD 0 != 0)
    | _ => false)

/-- Specification-side value of the last `errno` pair of a body
(default `d`). -/
def lastErrnoAux (d : Int) : List (List Char) → Int
  | [] => d
  | l :: rest =>
    match splitOnChar '=' l with
    | [k, v] =>
      if k = "errno".data then lastErrnoAux ((atoi v).getD 0) rest
      else lastErrnoAux d rest
    | _ => lastErrnoAux d rest

/-- Specification-side value of the last `errmsg` pair of a body
(default `m`). -/
def lastErrmsgAux (m : List Char) : List (List Char) → List Char
  | [] => m
  | l :: rest =>
    match splitOnChar '=' l with
    | [k, v] =>
      if k = "errmsg".data then lastErrmsgAux v rest
      else lastErrmsgAux m rest
    | _ => lastErrmsgAux m rest

/-- A well-formed body line: exactly one `=`, and an integer value
whenever the key is `errno`. -/
def wfPairLine (l : List Char) : Bool :=
  match splitOnChar '=' l with
  | [k, v] => k != "errno".data || (atoi v).isSome
  | _ => false

/-- A well-formed message body. -/
def wfBody (body : List (List Char)) : Bool := body.all wfPairLine

/-! ## Helper lemmas -/

/-- Consumed-character count of `xtoiLoop` grows by at most the input
length. -/
theorem xtoiLoop_le (s : List Char) : ∀ n i,
    (xtoiLoop s n i).2.1 ≤ s.length + i := by
  induction s with
  | nil => intro n i; simp [xtoiLoop]
  | cons c rest ih =>
    intro n i
    rcases h : hexVal c with - | d
    · simp [xtoiLoop, h]
    · simp only [xtoiLoop, h, List.length_cons]
      split
      · simp
      · exact Nat.le_trans (ih _ (i + 1)) (by omega)

/-- On success `xtoi` consumes at least one character and at most the
whole input. -/
theorem xtoi_consumed (s : List Char) (h : (xtoi s).2.2 = true) :
    1 ≤ (xtoi s).2.1 ∧ (xtoi s).2.1 ≤ s.length := by
  have hle := xtoiLoop_le s 0 0
  simp only [Nat.add_zero] at hle
  unfold xtoi at h ⊢
  generalize hx : xtoiLoop s 0 0 = t at h hle ⊢
  obtain ⟨n, i, ok⟩ := t
  cases ok with
  | false => exact Bool.noConfusion h
  | true =>
    by_cases hi : i = 0
    · subst hi; exact Bool.noConfusion h
    · constructor
      · show 1 ≤ (if i = 0 then ((0 : Nat), (0 : Nat), false) else (n, i, true)).2.1
        rw [if_neg hi]; exact Nat.pos_of_ne_zero hi
      · show (if i = 0 then ((0 : Nat), (0 : Nat), false) else (n, i, true)).2.1 ≤ s.length
        rw [if_neg hi]; exact hle

/-- `kvInt` never changes the token stream. -/
theorem kvInt_lines (p : KVParser) : (kvInt p).2.lines = p.lines := by
  unfold kvInt
  split
  · rfl
  · rcases atoi p.v with - | n <;> rfl

/-- `kvInt` never changes the scanner state. -/
theorem kvInt_scanner (p : KVParser) :
    (kvInt p).2.readErr = p.readErr ∧ (kvInt p).2.tripped = p.tripped := by
  unfold kvInt
  split
  · exact ⟨rfl, rfl⟩
  · rcases atoi p.v with - | n <;> exact ⟨rfl, rfl⟩

/-- `setNumber` leaves the token stream unchanged. -/
theorem setNumber_lines (p : KVParser) (n : Int) : (setNumber p n).lines = p.lines := rfl

/-- `setMessage` leaves the token stream unchanged. -/
theorem setMessage_lines (p : KVParser) (s : List Char) :
    (setMessage p s).lines = p.lines := rfl

/-- `kvNextF` does not depend on the fuel, as long as there is more fuel
than tokens. -/
theorem kvNextF_fuel : ∀ (f g : Nat) (p : KVParser),
    p.lines.length < f → p.lines.length < g → kvNextF f p = kvNextF g p := by
  intro f
  induction f with
  | zero => intro g p hf; omega
  | succ f ih =>
    intro g p hf hg
    rcases g with - | g
    · omega
    · rcases hl : p.lines with - | ⟨line, rest⟩
      · simp only [kvNextF, hl]
      · have hrf : rest.length < f := by
          rw [hl] at hf; simp only [List.length_cons] at hf; omega
        have hrg : rest.length < g := by
          rw [hl] at hg; simp only [List.length_cons] at hg; omega
        simp only [kvNextF, hl]
        by_cases hline : line = []
        · simp [hline]
        · simp only [if_neg hline]
          rcases hs : splitOnChar '=' line with - | ⟨k, - | ⟨v, - | -⟩⟩
        
          · rfl
          · rfl
          · by_cases hk : k = "errno".data
            · simp only [if_pos hk]
              apply ih
              · rw [setNumber_lines, kvInt_lines]; exact hrf
              · rw [setNumber_lines, kvInt_lines]; exact hrg
            · by_cases hk2 : k = "errmsg".data
              · simp only [if_neg hk, if_pos hk2]
                apply ih
                · rw [setMessage_lines]; exact hrf
                · rw [setMessage_lines]; exact hrg
              · simp [hk, hk2]
          · rfl

/-- `kvNextF` with enough fuel computes `kvNext`. -/
theorem kvNextF_eq_kvNext (f : Nat) (p : KVParser) (hf : p.lines.length < f) :
    kvNextF f p = kvNext p :=
  kvNextF_fuel f (p.lines.length + 1) p hf (Nat.lt_succ_self _)

/-- A successful `kvNextF` consumed at least one token. -/
theorem kvNextF_true_lines : ∀ (f : Nat) (p : KVParser),
    (kvNextF f p).1 = true → (kvNextF f p).2.lines.length < p.lines.length := by
  intro f
  induction f with
  | zero => intro p h; exact Bool.noConfusion h
  | succ f ih =>
    intro p h
    rcases hl : p.lines with - | ⟨line, rest⟩
    · simp only [kvNextF, hl] at h
      exact Bool.noConfusion h
    · simp only [kvNextF, hl] at h ⊢
      by_cases hline : line = []
      · simp only [if_pos hline] at h
        exact Bool.noConfusion h
      · simp only [if_neg hline] at h ⊢
        rcases hs : splitOnChar '=' line with - | ⟨k, - | ⟨v, - | ⟨w, ws⟩⟩⟩ <;>
          simp only [hs] at h ⊢
        · exact Bool.noConfusion h
        · exact Bool.noConfusion h
        · by_cases hk : k = "errno".data
          · simp only [if_pos hk] at h ⊢
            have := ih _ h
            simp only [setNumber_lines, kvInt_lines, List.length_cons] at this ⊢
            omega
          · by_cases hk2 : k = "errmsg".data
            · simp only [if_neg hk, if_pos hk2] at h ⊢
              have := ih _ h
              simp only [setMessage_lines, List.length_cons] at this ⊢
              omega
            · simp only [if_neg hk, if_neg hk2] at h ⊢
              simp
        · exact Bool.noConfusion h

/-- A successful `kvNext` consumed at least one token. -/
theorem kvNext_true_lines (p : KVParser) (h : (kvNext p).1 = true) :
    (kvNext p).2.lines.length < p.lines.length :=
  kvNextF_true_lines (p.lines.length + 1) p h

/-- `kvIPNet` never changes the token stream. -/
theorem kvIPNet_lines (f : Nat) (p : KVParser) :
    ((kvIPNet f p).2.lines = p.lines) := by
  unfold kvIPNet
  repeat' split
  all_goals rfl


/-- The network half of a successful `parseCIDR` is the parsed address
masked with the parsed prefix mask. -/
theorem parseCIDR_network (s : List Char) (ip : List Nat) (ipn : IPNet)
    (h : parseCIDR s = some (ip, ipn)) :
    ipn.ip = maskIP ip ipn.mask := by
  unfold parseCIDR at h
  rcases hidx : indexOfChar '/' s with - | i
  · rw [hidx] at h; exact Option.noConfusion h
  · rw [hidx] at h
    simp only at h
    rcases h4 : parseIPv4 (s.take i) with - | ip4
    · rw [h4] at h
      simp only at h
      rcases hz : parseIPv6Zone (s.take i) with - | ip6
      · rw [hz] at h; exact Option.noConfusion h
      · rw [hz] at h
        simp only at h
        split at h
        · exact Option.noConfusion h
        · simp only [Option.some.injEq, Prod.mk.injEq] at h
          obtain ⟨rfl, h2⟩ := h
          rw [← h2]
    · rw [h4] at h
      simp only at h
      split at h
      · exact Option.noConfusion h
      · simp only [Option.some.injEq, Prod.mk.injEq] at h
        obtain ⟨rfl, h2⟩ := h
        rw [← h2]

/-- `encodeLines` of an empty line list. -/
theorem encodeLines_nil : encodeLines [] = [] := rfl

/-- `encodeLines` prepends one line and its newline. -/
theorem encodeLines_cons (l : List Char) (ls : List (List Char)) :
    encodeLines (l :: ls) = l ++ '\n' :: encodeLines ls := rfl

/-- `encodeLines` distributes over append. -/
theorem encodeLines_append (a b : List (List Char)) :
    encodeLines (a ++ b) = encodeLines a ++ encodeLines b := by
  induction a with
  | nil => simp [encodeLines]
  | cons l t ih => simp [encodeLines_cons, ih]

/-- One `kvNext` step on an empty line: end of message. -/
theorem kvNext_step_empty (p : KVParser) (rest : List (List Char))
    (hl : p.lines = [] :: rest) :
    kvNext p = (false, { p with lines := rest }) := by
  unfold kvNext
  simp only [hl, List.length_cons, kvNextF]
  simp

/-- One `kvNext` step at end of input: the scanner trips. -/
theorem kvNext_step_eof (p : KVParser) (hl : p.lines = []) :
    kvNext p = (false, { p with tripped := true }) := by
  unfold kvNext
  simp only [hl, List.length_nil, kvNextF]

/-- A line that splits into exactly two parts is non-empty. -/
theorem splitTwo_ne_nil (line k v : List Char)
    (hs : splitOnChar '=' line = [k, v]) : line ≠ [] := by
  intro h
  rw [h] at hs
  simp [splitOnChar] at hs

/-- One `kvNext` step on an ordinary well-formed pair. -/
theorem kvNext_step_pair (p : KVParser) (line : List Char)
    (rest : List (List Char)) (k v : List Char) (hl : p.lines = line :: rest)
    (hs : splitOnChar '=' line = [k, v]) (hk : k ≠ "errno".data)
    (hk2 : k ≠ "errmsg".data) :
    kvNext p = (true, { p with lines := rest, k := k, v := v }) := by
  have hline := splitTwo_ne_nil line k v hs
  unfold kvNext
  simp only [hl, List.length_cons, kvNextF, if_neg hline, hs, if_neg hk, if_neg hk2]

/-- One fuelled `kvNext` step on an `errno` pair with an integer value:
the pair is absorbed into the accumulator and scanning continues. -/
theorem kvNextF_step_errno (f : Nat) (p : KVParser) (line : List Char)
    (rest : List (List Char)) (v : List Char) (n : Int)
    (hl : p.lines = line :: rest)
    (hs : splitOnChar '=' line = ["errno".data, v])
    (herr : p.err = none) (ha : atoi v = some n) :
    kvNextF (f + 1) p =
      kvNextF f (setNumber { p with lines := rest, k := "errno".data, v := v } n) := by
  have hline := splitTwo_ne_nil line "errno".data v hs
  have hq : kvInt { p with lines := rest, k := "errno".data, v := v } =
      (n, { p with lines := rest, k := "errno".data, v := v }) := by
    simp only [kvInt, herr, ha]
    rfl
  simp only [kvNextF, hl, if_neg hline, hs, if_pos rfl, hq]
  simp

/-- One `kvNext` step on an `errno` pair with an integer value. -/
theorem kvNext_step_errno (p : KVParser) (line : List Char)
    (rest : List (List Char)) (v : List Char) (n : Int)
    (hl : p.lines = line :: rest)
    (hs : splitOnChar '=' line = ["errno".data, v])
    (herr : p.err = none) (ha : atoi v = some n) :
    kvNext p =
      kvNext (setNumber { p with lines := rest, k := "errno".data, v := v } n) := by
  have h2 : kvNext p = kvNextF (rest.length + 1 + 1) p := by
    unfold kvNext
    congr 1
    rw [hl]
    simp
  rw [h2, kvNextF_step_errno (rest.length + 1) p line rest v n hl hs herr ha]
  exact kvNextF_eq_kvNext _ _ (by simp [setNumber])

/-- One fuelled `kvNext` step on an `errmsg` pair. -/
theorem kvNextF_step_errmsg (f : Nat) (p : KVParser) (line : List Char)
    (rest : List (List Char)) (v : List Char)
    (hl : p.lines = line :: rest)
    (hs : splitOnChar '=' line = ["errmsg".data, v])
    (herr : p.err = none) :
    kvNextF (f + 1) p =
      kvNextF f (setMessage { p with lines := rest, k := "errmsg".data, v := v } v) := by
  have hline := splitTwo_ne_nil line "errmsg".data v hs
  have hmsg : kvString { p with lines := rest, k := "errmsg".data, v := v } = v := by
    simp only [kvString, herr]
    rfl
  have hne : ("errmsg".data : List Char) ≠ "errno".data := by decide
  simp only [kvNextF, hl, if_neg hline, hs, if_neg hne, if_pos rfl, hmsg]
  simp

/-- One `kvNext` step on an `errmsg` pair. -/
theorem kvNext_step_errmsg (p : KVParser) (line : List Char)
    (rest : List (List Char)) (v : List Char)
    (hl : p.lines = line :: rest)
    (hs : splitOnChar '=' line = ["errmsg".data, v])
    (herr : p.err = none) :
    kvNext p =
      kvNext (setMessage { p with lines := rest, k := "errmsg".data, v := v } v) := by
  have h2 : kvNext p = kvNextF (rest.length + 1 + 1) p := by
    unfold kvNext
    congr 1
    rw [hl]
    simp
  rw [h2, kvNextF_step_errmsg (rest.length + 1) p line rest v hl hs herr]
  exact kvNextF_eq_kvNext _ _ (by simp [setMessage])

/-- `runKVF` does not depend on the fuel, as long as there is more fuel
than tokens. -/
theorem runKVF_fuel : ∀ (f g : Nat) (p : KVParser),
    p.lines.length < f → p.lines.length < g → runKVF f p = runKVF g p := by
  intro f
  induction f with
  | zero => intro g p hf; omega
  | succ f ih =>
    intro g p hf hg
    rcases g with - | g
    · omega
    · rcases hk : kvNext p with ⟨b, q⟩
      simp only [runKVF, hk]
      cases b
      · rfl
      · have hlt := kvNext_true_lines p (by rw [hk])
        rw [hk] at hlt
        simp only at hlt
        exact ih g q (by omega) (by omega)

/-- After a failing `kvNext`, `runKV` stops in that state. -/
theorem runKV_next_false (p q : KVParser) (h : kvNext p = (false, q)) :
    runKV p = q := by
  unfold runKV
  simp only [runKVF, h]

/-- After a successful `kvNext`, `runKV` continues from the new state. -/
theorem runKV_next_true (p q : KVParser) (h : kvNext p = (true, q)) :
    runKV p = runKV q := by
  unfold runKV
  simp only [runKVF, h]
  have hlt := kvNext_true_lines p (by rw [h])
  rw [h] at hlt
  simp only at hlt
  exact runKVF_fuel _ _ _ hlt (Nat.lt_succ_self _)

/-- States with the same `kvNext` outcome finish `runKV` alike. -/
theorem runKV_congr (p p2 : KVParser) (h : kvNext p = kvNext p2) :
    runKV p = runKV p2 := by
  rcases hk : kvNext p2 with ⟨b, q⟩
  rw [hk] at h
  cases b
  · rw [runKV_next_false p q h, runKV_next_false p2 q hk]
  · rw [runKV_next_true p q h, runKV_next_true p2 q hk]

/-- Driving the parser over a well-formed body followed by the blank
terminator: no fault arises, the scanner does not trip, and the
accumulated protocol error ends at the last `errno`/`errmsg` values. -/
theorem runKV_wf : ∀ (body : List (List Char)) (p : KVParser)
    (rest : List (List Char)),
    p.lines = body ++ [[]] ++ rest → p.err = none → p.tripped = false →
    wfBody body = true →
    (runKV p).err = none ∧ (runKV p).tripped = false ∧
    (runKV p).readErr = p.readErr ∧
    (runKV p).werr.number = lastErrnoAux p.werr.number body ∧
    (runKV p).werr.message = lastErrmsgAux p.werr.message body := by
  intro body
  induction body with
  | nil =>
    intro p rest hl herr htr hwf
    have h0 : kvNext p = (false, { p with lines := rest }) :=
      kvNext_step_empty p rest (by simpa using hl)
    rw [runKV_next_false p _ h0]
    exact ⟨herr, htr, rfl, rfl, rfl⟩
  | cons l t ih =>
    intro p rest hl herr htr hwf
    have hwl : wfPairLine l = true ∧ wfBody t = true := by
      simpa [wfBody] using hwf
    have hlc : p.lines = l :: (t ++ [[]] ++ rest) := by simpa using hl
    rcases hsp : splitOnChar '=' l with - | ⟨k, - | ⟨v, - | ⟨w, ws⟩⟩⟩
    · have h1 := hwl.1
      simp only [wfPairLine, hsp] at h1
      exact Bool.noConfusion h1
    · have h1 := hwl.1
      simp only [wfPairLine, hsp] at h1
      exact Bool.noConfusion h1
    · by_cases hk : k = "errno".data
      · subst hk
        have hai : (atoi v).isSome = true := by
          have := hwl.1
          rw [wfPairLine, hsp] at this
          simpa using this
        rcases han : atoi v with - | n
        · rw [han] at hai; exact Bool.noConfusion hai
        · have hstep := kvNext_step_errno p l _ v n hlc hsp herr han
          rw [runKV_congr p _ hstep]
          have := ih
            (setNumber { p with lines := t ++ [[]] ++ rest, k := "errno".data, v := v } n)
            rest (by simp [setNumber]) (by simp [setNumber, herr])
            (by simp [setNumber, htr]) hwl.2
          simpa [setNumber, lastErrnoAux, lastErrmsgAux, hsp, han] using this
      · by_cases hk2 : k = "errmsg".data
        · subst hk2
          have hstep := kvNext_step_errmsg p l _ v hlc hsp herr
          rw [runKV_congr p _ hstep]
          have := ih
            (setMessage { p with lines := t ++ [[]] ++ rest, k := "errmsg".data, v := v } v)
            rest (by simp [setMessage]) (by simp [setMessage, herr])
            (by simp [setMessage, htr]) hwl.2
          simpa [setMessage, lastErrnoAux, lastErrmsgAux, hsp, hk] using this
        · have hstep := kvNext_step_pair p l _ k v hlc hsp hk hk2
          rw [runKV_next_true p _ hstep]
          have := ih { p with lines := t ++ [[]] ++ rest, k := k, v := v } rest
            (by simp) (by simp [herr]) (by simp [htr]) hwl.2
          simpa [lastErrnoAux, lastErrmsgAux, hsp, hk, hk2] using this
    · have h1 := hwl.1
      simp only [wfPairLine, hsp] at h1
      exact Bool.noConfusion h1

/-! ### Digit printing and parsing round trips -/

/-- Decimal digit characters parse back to their value. -/
theorem decVal_decDigitChar : ∀ d, d < 10 → decVal (decDigitChar d) = some d := by
  decide

/-- Hexadecimal digit characters parse back to their value. -/
theorem hexVal_hexDigitChar : ∀ d, d < 16 → hexVal (hexDigitChar d) = some d := by
  decide

/-- The digit-accumulation fold never decreases (for a positive base). -/
theorem foldl_digits_ge (b : Nat) (hb : 1 ≤ b) : ∀ (ds : List Nat) (acc : Nat),
    acc ≤ ds.foldl (fun a d => a * b + d) acc := by
  intro ds
  induction ds with
  | nil => intro acc; simp
  | cons d t ih =>
    intro acc
    have h1 : acc ≤ acc * b + d := by
      have := Nat.mul_le_mul_left acc hb
      omega
    calc acc ≤ acc * b + d := h1
      _ ≤ t.foldl (fun a d => a * b + d) (acc * b + d) := ih _
      _ = (d :: t).foldl (fun a d => a * b + d) acc := by simp [List.foldl_cons]

/-- Digits of `toDigitsDecF` are below 10. -/
theorem toDigitsDecF_lt : ∀ (f n : Nat), ∀ d ∈ toDigitsDecF f n, d < 10 := by
  intro f
  induction f with
  | zero => intro n d hd; simp [toDigitsDecF] at hd
  | succ f ih =>
    intro n d hd
    rw [toDigitsDecF] at hd
    by_cases h : n < 10
    · rw [if_pos h] at hd
      simp at hd
      omega
    · rw [if_neg h] at hd
      rcases List.mem_append.1 hd with h1 | h1
      · exact ih _ _ h1
      · simp at h1
        omega

/-- Digits of `toDigitsHexF` are below 16. -/
theorem toDigitsHexF_lt : ∀ (f n : Nat), ∀ d ∈ toDigitsHexF f n, d < 16 := by
  intro f
  induction f with
  | zero => intro n d hd; simp [toDigitsHexF] at hd
  | succ f ih =>
    intro n d hd
    rw [toDigitsHexF] at hd
    by_cases h : n < 16
    · rw [if_pos h] at hd
      simp at hd
      omega
    · rw [if_neg h] at hd
      rcases List.mem_append.1 hd with h1 | h1
      · exact ih _ _ h1
      · simp at h1
        omega

/-- `toDigitsDecF` recovers its input through the decimal fold. -/
theorem toDigitsDecF_val : ∀ (f n : Nat), n < f →
    (toDigitsDecF f n).foldl (fun a d => a * 10 + d) 0 = n := by
  intro f
  induction f with
  | zero => intro n h; omega
  | succ f ih =>
    intro n h
    rw [toDigitsDecF]
    by_cases h10 : n < 10
    · simp [if_pos h10]
    · rw [if_neg h10]
      rw [List.foldl_append]
      have hdiv : n / 10 < f := by
        have h1 : n / 10 < n := Nat.div_lt_self (by omega) (by omega)
        omega
      rw [ih (n / 10) hdiv]
      simp only [List.foldl_cons, List.foldl_nil]
      omega

/-- `toDigitsHexF` recovers its input through the hexadecimal fold. -/
theorem toDigitsHexF_val : ∀ (f n : Nat), n < f →
    (toDigitsHexF f n).foldl (fun a d => a * 16 + d) 0 = n := by
  intro f
  induction f with
  | zero => intro n h; omega
  | succ f ih =>
    intro n h
    rw [toDigitsHexF]
    by_cases h16 : n < 16
    · simp [if_pos h16]
    · rw [if_neg h16]
      rw [List.foldl_append]
      have hdiv : n / 16 < f := by
        have h1 : n / 16 < n := Nat.div_lt_self (by omega) (by omega)
        omega
      rw [ih (n / 16) hdiv]
      simp only [List.foldl_cons, List.foldl_nil]
      omega

/-- `toDigitsDecF` is non-empty when fuelled. -/
theorem toDigitsDecF_ne_nil (f n : Nat) (h : n < f) : toDigitsDecF f n ≠ [] := by
  rcases f with - | f
  · omega
  · rw [toDigitsDecF]
    by_cases h10 : n < 10
    · simp [if_pos h10]
    · rw [if_neg h10]
      simp

/-- `toDigitsHexF` is non-empty when fuelled. -/
theorem toDigitsHexF_ne_nil (f n : Nat) (h : n < f) : toDigitsHexF f n ≠ [] := by
  rcases f with - | f
  · omega
  · rw [toDigitsHexF]
    by_cases h16 : n < 16
    · simp [if_pos h16]
    · rw [if_neg h16]
      simp

/-- The leading digit of a positive number is not zero. -/
theorem toDigitsDecF_head : ∀ (f n : Nat), n < f → 0 < n →
    (toDigitsDecF f n).head? ≠ some 0 := by
  intro f
  induction f with
  | zero => intro n h; omega
  | succ f ih =>
    intro n h hpos
    rw [toDigitsDecF]
    by_cases h10 : n < 10
    · simp [if_pos h10]
      omega
    · rw [if_neg h10]
      have hdiv : n / 10 < f := by
        have h1 : n / 10 < n := Nat.div_lt_self (by omega) (by omega)
        omega
      have hdivpos : 0 < n / 10 := Nat.div_pos (by omega) (by omega)
      have hne := toDigitsDecF_ne_nil f (n / 10) hdiv
      rcases hd : toDigitsDecF f (n / 10) with - | ⟨d, t⟩
      · exact absurd hd hne
      · have := ih (n / 10) hdiv hdivpos
        rw [hd] at this
        simpa using this

/-- `dtoiLoop` consumes a block of decimal digit characters whose value
stays below `big`, accumulating their value. -/
theorem dtoiLoop_digits : ∀ (ds : List Nat) (rest : List Char) (acc i : Nat),
    (∀ d ∈ ds, d < 10) →
    ds.foldl (fun a d => a * 10 + d) acc < big →
    dtoiLoop (ds.map decDigitChar ++ rest) acc i =
      dtoiLoop rest (ds.foldl (fun a d => a * 10 + d) acc) (i + ds.length) := by
  intro ds
  induction ds with
  | nil => intro rest acc i h1 h2; simp
  | cons d t ih =>
    intro rest acc i h1 h2
    have hd : d < 10 := h1 d (by simp)
    simp only [List.map_cons, List.cons_append, dtoiLoop, decVal_decDigitChar d hd]
    have hlt : acc * 10 + d < big := by
      have hge := foldl_digits_ge 10 (by omega) t (acc * 10 + d)
      simp only [List.foldl_cons] at h2
      omega
    rw [if_neg (by omega)]
    simp only [List.append_eq]
    rw [ih rest (acc * 10 + d) (i + 1) (fun x hx => h1 x (by simp [hx])) (by simpa using h2)]
    simp only [List.foldl_cons, List.length_cons]
    congr 1
    omega

/-- `xtoiLoop` consumes a block of hexadecimal digit characters whose
value stays below `big`, accumulating their value. -/
theorem xtoiLoop_digits : ∀ (ds : List Nat) (rest : List Char) (acc i : Nat),
    (∀ d ∈ ds, d < 16) →
    ds.foldl (fun a d => a * 16 + d) acc < big →
    xtoiLoop (ds.map hexDigitChar ++ rest) acc i =
      xtoiLoop rest (ds.foldl (fun a d => a * 16 + d) acc) (i + ds.length) := by
  intro ds
  induction ds with
  | nil => intro rest acc i h1 h2; simp
  | cons d t ih =>
    intro rest acc i h1 h2
    have hd : d < 16 := h1 d (by simp)
    simp only [List.map_cons, List.cons_append, xtoiLoop, hexVal_hexDigitChar d hd]
    have hlt : acc * 16 + d < big := by
      have hge := foldl_digits_ge 16 (by omega) t (acc * 16 + d)
      simp only [List.foldl_cons] at h2
      omega
    rw [if_neg (by omega)]
    simp only [List.append_eq]
    rw [ih rest (acc * 16 + d) (i + 1) (fun x hx => h1 x (by simp [hx])) (by simpa using h2)]
    simp only [List.foldl_cons, List.length_cons]
    congr 1
    omega

/-- `dtoi` reads back `uitoa n` (for `n` below the overflow cutoff),
stopping at a non-digit. -/
theorem dtoi_uitoa (n : Nat) (rest : List Char) (hn : n < big)
    (hr : ∀ c, rest.head? = some c → decVal c = none) :
    dtoi (uitoa n ++ rest) = (n, (uitoa n).length, true) := by
  have hds := toDigitsDecF_lt (n + 1) n
  have hval : (toDigitsDec n).foldl (fun a d => a * 10 + d) 0 = n :=
    toDigitsDecF_val (n + 1) n (Nat.lt_succ_self n)
  have hloop := dtoiLoop_digits (toDigitsDec n) rest 0 0 hds (by rw [hval]; exact hn)
  have hstop : dtoiLoop rest n (0 + (toDigitsDec n).length) =
      (n, (toDigitsDec n).length, true) := by
    rcases rest with - | ⟨c, r⟩
    · simp [dtoiLoop]
    · have := hr c rfl
      simp [dtoiLoop, this]
  unfold dtoi uitoa
  rw [hloop, hval, hstop]
  have hne : (toDigitsDec n).length ≠ 0 := by
    have := toDigitsDecF_ne_nil (n + 1) n (Nat.lt_succ_self n)
    intro h
    exact this (List.eq_nil_of_length_eq_zero h)
  simp [hne]

/-- `xtoi` reads back `hexStr n` (for `n` below the overflow cutoff),
stopping at a non-hex-digit. -/
theorem xtoi_hexStr (n : Nat) (rest : List Char) (hn : n < big)
    (hr : ∀ c, rest.head? = some c → hexVal c = none) :
    xtoi (hexStr n ++ rest) = (n, (hexStr n).length, true) := by
  have hds := toDigitsHexF_lt (n + 1) n
  have hval : (toDigitsHex n).foldl (fun a d => a * 16 + d) 0 = n :=
    toDigitsHexF_val (n + 1) n (Nat.lt_succ_self n)
  have hloop := xtoiLoop_digits (toDigitsHex n) rest 0 0 hds (by rw [hval]; exact hn)
  have hstop : xtoiLoop rest n (0 + (toDigitsHex n).length) =
      (n, (toDigitsHex n).length, true) := by
    rcases rest with - | ⟨c, r⟩
    · simp [xtoiLoop]
    · have := hr c rfl
      simp [xtoiLoop, this]
  unfold xtoi hexStr
  rw [hloop, hval, hstop]
  have hne : (toDigitsHex n).length ≠ 0 := by
    have := toDigitsHexF_ne_nil (n + 1) n (Nat.lt_succ_self n)
    intro h
    exact this (List.eq_nil_of_length_eq_zero h)
  simp [hne]


/-! ### Character-set facts about the formatters -/

/-- Characters of `uitoa` are decimal digits. -/
theorem uitoa_subset (n : Nat) : ∀ c ∈ uitoa n, c ∈ "0123456789".data := by
  intro c hc
  rcases List.mem_map.1 hc with ⟨d, hd, rfl⟩
  have hlt := toDigitsDecF_lt (n + 1) n d hd
  have hall : ∀ d, d < 10 → decDigitChar d ∈ "0123456789".data := by decide
  exact hall d hlt

/-- Characters of `hexStr` are lowercase hexadecimal digits. -/
theorem hexStr_subset (n : Nat) : ∀ c ∈ hexStr n, c ∈ "0123456789abcdef".data := by
  intro c hc
  rcases List.mem_map.1 hc with ⟨d, hd, rfl⟩
  have hlt := toDigitsHexF_lt (n + 1) n d hd
  have hall : ∀ d, d < 16 → hexDigitChar d ∈ "0123456789abcdef".data := by decide
  exact hall d hlt

/-- Characters of `itoa` are a sign or decimal digits. -/
theorem itoa_subset (i : Int) : ∀ c ∈ itoa i, c ∈ "-0123456789".data := by
  intro c hc
  unfold itoa at hc
  split at hc
  · simp only [List.mem_cons] at hc
    rcases hc with hc | hc
    · simp [hc]
    · have := uitoa_subset i.natAbs c hc
      simp at this ⊢
      tauto
  · have := uitoa_subset i.toNat c hc
    simp at this ⊢
    tauto

/-- Members of an interleaving are the separator or chunk members. -/
theorem intercalateChar_mem (sep : Char) :
    ∀ (ls : List (List Char)) (c : Char), c ∈ intercalateChar sep ls →
      c = sep ∨ ∃ l ∈ ls, c ∈ l := by
  intro ls
  induction ls with
  | nil => intro c hc; simp [intercalateChar] at hc
  | cons x xs ih =>
    intro c hc
    rcases xs with - | ⟨y, ys⟩
    · simp only [intercalateChar] at hc
      exact Or.inr ⟨x, by simp, hc⟩
    · simp only [intercalateChar, List.mem_append, List.mem_cons] at hc
      rcases hc with hc | hc | hc
      · exact Or.inr ⟨x, by simp, hc⟩
      · exact Or.inl hc
      · rcases ih c hc with h | ⟨l, hl, hcl⟩
        · exact Or.inl h
        · exact Or.inr ⟨l, by simp [hl], hcl⟩

/-- Characters of `formatIPv4` are digits or dots. -/
theorem formatIPv4_subset (p : List Nat) :
    ∀ c ∈ formatIPv4 p, c ∈ ".0123456789".data := by
  intro c hc
  rcases intercalateChar_mem '.' _ c hc with h | ⟨l, hl, hcl⟩
  · simp [h]
  · rcases List.mem_map.1 hl with ⟨b, hb, rfl⟩
    have := uitoa_subset b c hcl
    simp at this ⊢
    tauto

/-- Characters of `formatIPv6` are hex digits or colons. -/
theorem formatIPv6_subset (p : List Nat) :
    ∀ c ∈ formatIPv6 p, c ∈ ":0123456789abcdef".data := by
  intro c hc
  have hblock : ∀ (gs : List Nat), c ∈ intercalateChar ':' (gs.map hexStr) →
      c ∈ ":0123456789abcdef".data := by
    intro gs hmem
    rcases intercalateChar_mem ':' _ c hmem with h | ⟨l, hl, hcl⟩
    · simp [h]
    · rcases List.mem_map.1 hl with ⟨g, hg, rfl⟩
      have := hexStr_subset g c hcl
      simp at this ⊢
      tauto
  unfold formatIPv6 at hc
  rcases hbr : bestRun (groupsOf p) with - | ⟨e0, e1⟩ <;> simp only [hbr] at hc
  · exact hblock _ hc
  · simp only [List.mem_append, List.mem_cons] at hc
    rcases hc with hc | hc | hc
    · exact hblock _ hc
    · simp [hc]
    · rcases hc with hc | hc
      · simp [hc]
      · exact hblock _ hc


/-! ### parseIPv4 against the dotted-decimal formatter -/

/-- `uitoa` output is never empty. -/
theorem uitoa_ne_nil (n : Nat) : uitoa n ≠ [] := by
  unfold uitoa
  intro h
  exact toDigitsDecF_ne_nil (n + 1) n (Nat.lt_succ_self n) (by simpa using h)

/-- `hexStr` output is never empty. -/
theorem hexStr_ne_nil (n : Nat) : hexStr n ≠ [] := by
  unfold hexStr
  intro h
  exact toDigitsHexF_ne_nil (n + 1) n (Nat.lt_succ_self n) (by simpa using h)

/-- Small numbers print as one digit. -/
theorem uitoa_small (n : Nat) (h : n < 10) : uitoa n = [decDigitChar n] := by
  unfold uitoa toDigitsDec
  rw [toDigitsDecF, if_pos h]
  rfl

/-- The first digit character of a multi-digit `uitoa` is not `0`. -/
theorem uitoa_head_ne_zero (n : Nat) (h : 10 ≤ n) :
    (uitoa n).head? ≠ some '0' := by
  unfold uitoa
  have hhead := toDigitsDecF_head (n + 1) n (Nat.lt_succ_self n) (by omega)
  have hlt := toDigitsDecF_lt (n + 1) n
  rcases hd : toDigitsDec n with - | ⟨d, t⟩
  · exact absurd hd (toDigitsDecF_ne_nil (n + 1) n (Nat.lt_succ_self n))
  · unfold toDigitsDec at hd
    rw [hd] at hhead
    simp only [List.head?_cons, ne_eq, Option.some.injEq] at hhead
    have hd10 : d < 10 := hlt d (by rw [hd]; simp)
    have hne : ∀ d, d < 10 → d ≠ 0 → decDigitChar d ≠ '0' := by decide
    simp only [hd, List.map_cons, List.head?_cons, ne_eq, Option.some.injEq]
    exact hne d hd10 hhead


/-- The first field step of `parseIPv4Aux` (no leading dot). -/
theorem parseIPv4Aux_first (k b : Nat) (rest : List Char) (hb : b ≤ 255)
    (hr : ∀ c, rest.head? = some c → decVal c = none) :
    parseIPv4Aux (k + 1) (uitoa b ++ rest) [] = parseIPv4Aux k rest [b] := by
  have hd := dtoi_uitoa b rest (by unfold big; omega) hr
  have hne : uitoa b ++ rest ≠ [] := by
    simp [uitoa_ne_nil b]
  have hlz : ¬((dtoi (uitoa b ++ rest)).2.1 > 1 ∧ (uitoa b ++ rest).head? = some '0') := by
    rw [hd]
    simp only
    by_cases h10 : b < 10
    · rw [uitoa_small b h10]
      simp
    · intro hcon
      have h2 := hcon.2
      rcases hu : uitoa b with - | ⟨c0, cs⟩
      · exact uitoa_ne_nil b hu
      · rw [hu] at h2
        simp only [List.cons_append, List.head?_cons, Option.some.injEq] at h2
        have := uitoa_head_ne_zero b (by omega)
        rw [hu] at this
        simp only [List.head?_cons, ne_eq, Option.some.injEq] at this
        exact this h2
  rw [parseIPv4Aux, if_neg hne]
  rw [if_pos (show ([] : List Nat).length = 0 from rfl)]
  dsimp only
  rw [if_neg (by rw [hd]; simp; omega)]
  rw [if_neg hlz]
  rw [hd]
  dsimp only
  rw [List.drop_left]
  rfl
  intro r hcon
  rcases hu : uitoa b with - | ⟨c0, cs⟩
  · exact uitoa_ne_nil b hu
  · rw [hu] at hcon
    simp only [List.cons_append, List.cons.injEq] at hcon
    have hmem : c0 ∈ "0123456789".data := uitoa_subset b c0 (by rw [hu]; simp)
    rw [hcon.1] at hmem
    simp at hmem

/-- The leading-zero rejection does not fire on `uitoa` output. -/
theorem uitoa_no_leadzero (b : Nat) (rest : List Char) (hb : b ≤ 255)
    (hr : ∀ c, rest.head? = some c → decVal c = none) :
    ¬((dtoi (uitoa b ++ rest)).2.1 > 1 ∧ (uitoa b ++ rest).head? = some '0') := by
  have hd := dtoi_uitoa b rest (by unfold big; omega) hr
  rw [hd]
  simp only
  by_cases h10 : b < 10
  · rw [uitoa_small b h10]
    simp
  · intro hcon
    have h2 := hcon.2
    rcases hu : uitoa b with - | ⟨c0, cs⟩
    · exact uitoa_ne_nil b hu
    · rw [hu] at h2
      simp only [List.cons_append, List.head?_cons, Option.some.injEq] at h2
      have := uitoa_head_ne_zero b (by omega)
      rw [hu] at this
      simp only [List.head?_cons, ne_eq, Option.some.injEq] at this
      exact this h2

/-- A later field step of `parseIPv4Aux` (leading dot). -/
theorem parseIPv4Aux_dot (k b : Nat) (rest : List Char) (acc : List Nat)
    (hacc : acc.length ≠ 0) (hb : b ≤ 255)
    (hr : ∀ c, rest.head? = some c → decVal c = none) :
    parseIPv4Aux (k + 1) ('.' :: (uitoa b ++ rest)) acc =
      parseIPv4Aux k rest (acc ++ [b]) := by
  have hd := dtoi_uitoa b rest (by unfold big; omega) hr
  rw [parseIPv4Aux, if_neg (by simp)]
  rw [if_neg hacc]
  dsimp only
  rw [if_neg (by rw [hd]; simp; omega)]
  rw [if_neg (uitoa_no_leadzero b rest hb hr)]
  rw [hd]
  dsimp only
  rw [List.drop_left]

/-- `parseIPv4Aux` with all four fields read accepts exactly the empty
remainder. -/
theorem parseIPv4Aux_done (acc : List Nat) : parseIPv4Aux 0 [] acc = some acc := by
  rw [parseIPv4Aux]
  simp

/-- `parseIPv4` reads back the dotted-decimal formatter's output. -/
theorem parseIPv4_format (a b c d : Nat) (ha : a ≤ 255) (hb : b ≤ 255)
    (hc : c ≤ 255) (hd : d ≤ 255) :
    parseIPv4 (formatIPv4 [a, b, c, d]) = some (v4in6 ++ [a, b, c, d]) := by
  have hdot : ∀ (x : List Char) (ch : Char), ('.' :: x).head? = some ch → decVal ch = none := by
    intro x ch h
    simp only [List.head?_cons, Option.some.injEq] at h
    rw [← h]
    decide
  have hnil : ∀ (ch : Char), ([] : List Char).head? = some ch → decVal ch = none := by
    intro ch h
    simp at h
  have hfmt : formatIPv4 [a, b, c, d] =
      uitoa a ++ '.' :: (uitoa b ++ '.' :: (uitoa c ++ '.' :: (uitoa d ++ []))) := by
    simp [formatIPv4, intercalateChar]
  unfold parseIPv4
  rw [hfmt]
  rw [show (4 : Nat) = 3 + 1 from rfl]
  rw [parseIPv4Aux_first 3 a _ ha (hdot _)]
  rw [show (3 : Nat) = 2 + 1 from rfl]
  rw [parseIPv4Aux_dot 2 b _ [a] (by simp) hb (hdot _)]
  simp only [List.cons_append, List.nil_append]
  rw [show (2 : Nat) = 1 + 1 from rfl]
  rw [parseIPv4Aux_dot 1 c _ [a, b] (by simp) hc (hdot _)]
  simp only [List.cons_append, List.nil_append]
  rw [show (1 : Nat) = 0 + 1 from rfl]
  rw [parseIPv4Aux_dot 0 d [] [a, b, c] (by simp) hd hnil]
  simp only [List.cons_append, List.nil_append]
  rw [parseIPv4Aux_done]
  rfl

/-- `parseIPv4Aux` past the first field fails without a dot. -/
theorem parseIPv4Aux_nodot (k : Nat) (s : List Char) (acc : List Nat)
    (hnod : '.' ∉ s) (hacc : acc.length ≠ 0) :
    parseIPv4Aux (k + 1) s acc = none := by
  rcases s with - | ⟨c0, cs⟩
  · rw [parseIPv4Aux]
    simp
    intro r h
    exact List.noConfusion h
  · have hc0 : c0 ≠ '.' := fun h => hnod (by simp [h])
    rw [parseIPv4Aux]
    rw [if_neg (by simp)]
    rw [if_neg hacc]
    intro r heq
    simp only [List.cons.injEq] at heq
    exact hc0 heq.1

/-- `parseIPv4` fails on any input without a dot. -/
theorem parseIPv4_nodot (s : List Char) (hnod : '.' ∉ s) : parseIPv4 s = none := by
  unfold parseIPv4
  suffices h : parseIPv4Aux 4 s [] = none by rw [h]; rfl
  rw [show (4 : Nat) = 3 + 1 from rfl, parseIPv4Aux]
  rcases s with - | ⟨c0, cs⟩
  · simp
  · rw [if_neg (by simp)]
    rw [if_pos (show ([] : List Nat).length = 0 from rfl)]
    dsimp only
    by_cases h1 : ¬(dtoi (c0 :: cs)).2.2 = true ∨ (dtoi (c0 :: cs)).1 > 255
    · rw [if_pos h1]
    · rw [if_neg h1]
      by_cases h2 : (dtoi (c0 :: cs)).2.1 > 1 ∧ (c0 :: cs).head? = some '0'
      · rw [if_pos h2]
      · rw [if_neg h2]
        rw [show (3 : Nat) = 2 + 1 from rfl]
        apply parseIPv4Aux_nodot
        · intro hmem
          exact hnod (List.mem_of_mem_drop hmem)
        · simp
  · intro r h
    rw [h] at hnod
    exact hnod (by simp)


/-! ### CIDR masks and their prefix lengths -/

/-- `cidrMaskAux` always yields `l` bytes. -/
theorem cidrMaskAux_length : ∀ (l n : Nat), (cidrMaskAux n l).length = l := by
  intro l
  induction l with
  | zero => intro n; rfl
  | succ l ih =>
    intro n
    rw [cidrMaskAux]
    by_cases h8 : n ≥ 8
    · simp [if_pos h8, ih]
    · simp [if_neg h8]

/-- The partial-byte values of a CIDR mask are not `0xff`. -/
theorem cidrMask_partial_ne : ∀ n < 8, (255 - 255 / 2 ^ n) ≠ 0xff := by decide

/-- The leading-ones count of a partial CIDR mask byte. -/
theorem countLeadingOnes_byte : ∀ n < 8, countLeadingOnes 8 (255 - 255 / 2 ^ n) = (n, 0) := by
  decide

/-- `simpleMaskLength` reads the prefix length back from `cidrMaskAux`. -/
theorem simpleMaskLength_cidrMaskAux : ∀ (l n : Nat), n ≤ 8 * l →
    simpleMaskLength (cidrMaskAux n l) = some n := by
  intro l
  induction l with
  | zero =>
    intro n h
    have hn : n = 0 := by omega
    subst hn
    rfl
  | succ l ih =>
    intro n h
    rw [cidrMaskAux]
    by_cases h8 : n ≥ 8
    · rw [if_pos h8, simpleMaskLength, if_pos rfl, ih (n - 8) (by omega)]
      simp only [Option.map_some']
      congr 1
      omega
    · rw [if_neg h8, simpleMaskLength]
      rw [if_neg (cidrMask_partial_ne n (by omega))]
      simp only [countLeadingOnes_byte n (by omega)]
      simp

/-- A 32-bit CIDR mask has 4 bytes. -/
theorem cidrMask_length4 (k : Nat) (h : k ≤ 32) : (cidrMask k 32).length = 4 := by
  rw [cidrMask, if_neg (by norm_num), if_neg (by omega)]
  exact cidrMaskAux_length 4 k

/-- A 128-bit CIDR mask has 16 bytes. -/
theorem cidrMask_length16 (k : Nat) (h : k ≤ 128) : (cidrMask k 128).length = 16 := by
  rw [cidrMask, if_neg (by norm_num), if_neg (by omega)]
  exact cidrMaskAux_length 16 k

/-- `simpleMaskLength` inverts `cidrMask` for 32-bit masks. -/
theorem simpleMaskLength_cidrMask4 (k : Nat) (h : k ≤ 32) :
    simpleMaskLength (cidrMask k 32) = some k := by
  rw [cidrMask, if_neg (by norm_num), if_neg (by omega)]
  exact simpleMaskLength_cidrMaskAux 4 k (by omega)

/-- `simpleMaskLength` inverts `cidrMask` for 128-bit masks. -/
theorem simpleMaskLength_cidrMask6 (k : Nat) (h : k ≤ 128) :
    simpleMaskLength (cidrMask k 128) = some k := by
  rw [cidrMask, if_neg (by norm_num), if_neg (by omega)]
  exact simpleMaskLength_cidrMaskAux 16 k (by omega)


/-! ### ipnetString on canonical networks -/

/-- `IPNet.String` of a 4-byte network with a CIDR mask is
`dotted-decimal/prefix`. -/
theorem ipnetString_canonical4 (ip : List Nat) (k : Nat) (hlen : ip.length = 4)
    (hk : k ≤ 32) :
    ipnetString ⟨ip, cidrMask k 32⟩ = formatIPv4 ip ++ '/' :: uitoa k := by
  have hne : ip ≠ [] := by
    intro h
    rw [h] at hlen
    simp at hlen
  have hto4 : to4 ip = some ip := by rw [to4, if_pos hlen]
  have hml : (cidrMask k 32).length = 4 := cidrMask_length4 k hk
  have hnn : networkNumberAndMask ⟨ip, cidrMask k 32⟩ = some (ip, cidrMask k 32) := by
    rw [networkNumberAndMask]
    simp only [hto4, hml, hlen]
    simp
  have hipstr : ipString ip = formatIPv4 ip := by
    rw [ipString, if_neg hne]
    simp only [hto4]
  rw [ipnetString, hnn]
  simp only [simpleMaskLength_cidrMask4 k hk, hipstr]

/-- `IPNet.String` of a 16-byte non-IPv4 network with a CIDR mask is
`RFC5952/prefix`. -/
theorem ipnetString_canonical6 (ip : List Nat) (k : Nat) (hlen : ip.length = 16)
    (h4 : to4 ip = none) (hk : k ≤ 128) :
    ipnetString ⟨ip, cidrMask k 128⟩ = formatIPv6 ip ++ '/' :: uitoa k := by
  have hne : ip ≠ [] := by
    intro h
    rw [h] at hlen
    simp at hlen
  have hml : (cidrMask k 128).length = 16 := cidrMask_length16 k hk
  have hnn : networkNumberAndMask ⟨ip, cidrMask k 128⟩ = some (ip, cidrMask k 128) := by
    rw [networkNumberAndMask]
    simp only [h4, hml, hlen]
    simp [hlen]
  have hipstr : ipString ip = formatIPv6 ip := by
    rw [ipString, if_neg hne]
    simp only [h4, hlen]
    simp
  rw [ipnetString, hnn]
  simp only [simpleMaskLength_cidrMask6 k hk, hipstr]

/-! ### Locating the slash and splitting pairs -/

/-- First occurrence of `c` after a `c`-free prefix. -/
theorem indexOfChar_append (c : Char) (l r : List Char) (h : c ∉ l) :
    indexOfChar c (l ++ c :: r) = some l.length := by
  induction l with
  | nil => simp [indexOfChar]
  | cons x xs ih =>
    have hx : x ≠ c := by
      intro e
      exact h (by simp [e])
    simp [indexOfChar, if_neg hx, ih (fun hm => h (List.mem_cons_of_mem x hm))]

/-- Dropping past a prefix and a separator. -/
theorem drop_sep (c : Char) (l r : List Char) :
    (l ++ c :: r).drop (l.length + 1) = r := by
  have h1 : l ++ c :: r = (l ++ [c]) ++ r := by simp
  have h2 : l.length + 1 = (l ++ [c]).length := by simp
  rw [h1, h2, List.drop_left]

/-- `splitOnChar` with no separator present. -/
theorem splitOnChar_notin (c : Char) (l : List Char) (h : c ∉ l) :
    splitOnChar c l = [l] := by
  induction l with
  | nil => rfl
  | cons x xs ih =>
    have hx : x ≠ c := by
      intro e
      exact h (by simp [e])
    rw [splitOnChar, if_neg hx, ih (fun hm => h (List.mem_cons_of_mem x hm))]

/-- `splitOnChar` peels off one separator after a clean prefix. -/
theorem splitOnChar_append (c : Char) (l r : List Char) (h : c ∉ l) :
    splitOnChar c (l ++ c :: r) = l :: splitOnChar c r := by
  induction l with
  | nil => simp [splitOnChar]
  | cons x xs ih =>
    have hx : x ≠ c := by
      intro e
      exact h (by simp [e])
    rw [List.cons_append, splitOnChar, if_neg hx,
      ih (fun hm => h (List.mem_cons_of_mem x hm))]

/-! ### parseCIDR on formatted IPv4 networks -/

/-- `parseCIDR` reads back a dotted-decimal/prefix string. -/
theorem parseCIDR_format4 (a b c d k : Nat) (ha : a ≤ 255) (hb : b ≤ 255)
    (hc : c ≤ 255) (hd : d ≤ 255) (hk : k ≤ 32) :
    parseCIDR (formatIPv4 [a, b, c, d] ++ '/' :: uitoa k) =
      some (v4in6 ++ [a, b, c, d],
        ⟨maskIP (v4in6 ++ [a, b, c, d]) (cidrMask k 32), cidrMask k 32⟩) := by
  have hslash : '/' ∉ formatIPv4 [a, b, c, d] := by
    intro hm
    exact absurd (formatIPv4_subset _ _ hm) (by decide)
  have hidx := indexOfChar_append '/' (formatIPv4 [a, b, c, d]) (uitoa k) hslash
  have hdt : dtoi (uitoa k) = (k, (uitoa k).length, true) := by
    have := dtoi_uitoa k [] (by unfold big; omega) (fun ch hch => by simp at hch)
    simpa using this
  rw [parseCIDR, hidx]
  simp only [List.take_left, drop_sep, parseIPv4_format a b c d ha hb hc hd, hdt]
  rw [if_neg (by simp; omega)]

/-! ### Groups and bytes of an IPv6 address -/

/-- `bytesOfGroups` distributes over append. -/
theorem bytesOfGroups_append (a b : List Nat) :
    bytesOfGroups (a ++ b) = bytesOfGroups a ++ bytesOfGroups b := by
  induction a with
  | nil => rfl
  | cons g gs ih => simp [bytesOfGroups, ih]

/-- `bytesOfGroups` doubles the length. -/
theorem bytesOfGroups_length (gs : List Nat) :
    (bytesOfGroups gs).length = 2 * gs.length := by
  induction gs with
  | nil => rfl
  | cons g t ih =>
    rw [bytesOfGroups, List.length_cons, List.length_cons, ih, List.length_cons]
    omega

/-- Zero groups give zero bytes. -/
theorem bytesOfGroups_replicate (n : Nat) :
    bytesOfGroups (List.replicate n 0) = List.replicate (2 * n) 0 := by
  induction n with
  | zero => rfl
  | succ n ih =>
    rw [List.replicate_succ, bytesOfGroups, ih,
      show 2 * (n + 1) = 2 * n + 1 + 1 by ring,
      List.replicate_succ, List.replicate_succ]

/-- `bytesOfGroups` inverts `groupsOf` on even-length byte lists. -/
theorem bytesOfGroups_groupsOf : ∀ (p : List Nat), (∀ x ∈ p, x < 256) →
    p.length % 2 = 0 → bytesOfGroups (groupsOf p) = p
  | [], _, _ => rfl
  | [x], _, hpar => absurd hpar (by simp)
  | b0 :: b1 :: rest, hb, hpar => by
    have ih := bytesOfGroups_groupsOf rest (fun x hx => hb x (by simp [hx]))
      (by simp only [List.length_cons] at hpar; omega)
    have h1 : b1 < 256 := hb b1 (by simp)
    have e1 : (b0 * 256 + b1) / 256 = b0 := by omega
    have e2 : (b0 * 256 + b1) % 256 = b1 := by omega
    rw [groupsOf, bytesOfGroups, ih, e1, e2]

/-- Number of groups. -/
theorem groupsOf_length : ∀ (p : List Nat), (groupsOf p).length = p.length / 2
  | [] => rfl
  | [x] => by
    have h : groupsOf [x] = [] := rfl
    rw [h]
    simp
  | b0 :: b1 :: rest => by
    rw [groupsOf, List.length_cons, groupsOf_length rest]
    simp only [List.length_cons]
    omega

/-- Group values of a byte list are 16-bit. -/
theorem groupsOf_lt : ∀ (p : List Nat), (∀ x ∈ p, x < 256) →
    ∀ g ∈ groupsOf p, g < 65536
  | [], _ => by intro g hg; simp [groupsOf] at hg
  | [x], _ => by intro g hg; simp [groupsOf] at hg
  | b0 :: b1 :: rest, hb => by
    intro g hg
    rw [groupsOf] at hg
    rcases List.mem_cons.1 hg with h | h
    · have h0 : b0 < 256 := hb b0 (by simp)
      have h1 : b1 < 256 := hb b1 (by simp)
      omega
    · exact groupsOf_lt rest (fun x hx => hb x (by simp [hx])) g h

/-! ### Counting zero groups -/

/-- The zero-group count never exceeds the length. -/
theorem countZeroGroups_le (l : List Nat) : countZeroGroups l ≤ l.length := by
  induction l with
  | nil => exact Nat.le.refl
  | cons x rest ih =>
    rcases x with - | m
    · show countZeroGroups rest + 1 ≤ rest.length + 1
      omega
    · exact Nat.zero_le _

/-- The counted prefix really is zeros. -/
theorem countZeroGroups_take (l : List Nat) :
    l.take (countZeroGroups l) = List.replicate (countZeroGroups l) 0 := by
  induction l with
  | nil => rfl
  | cons x rest ih =>
    rcases x with - | m
    · show (0 :: rest).take (countZeroGroups rest + 1) =
        List.replicate (countZeroGroups rest + 1) 0
      rw [List.take_succ_cons, List.replicate_succ, ih]
    · rfl



/-! ### Soundness of the zero-run scan -/

/-- Any run reported by the fuelled scan lies within the list and covers
only zero groups. -/
theorem bestRunAuxF_sound : ∀ (f : Nat) (G : List Nat) (i : Nat)
    (best : Option (Nat × Nat)),
    (∀ a b, best = some (a, b) → a ≤ b ∧ b ≤ G.length ∧
      (G.drop a).take (b - a) = List.replicate (b - a) 0) →
    i ≤ G.length →
    ∀ a b, bestRunAuxF f (G.drop i) i best = some (a, b) →
      a ≤ b ∧ b ≤ G.length ∧
      (G.drop a).take (b - a) = List.replicate (b - a) 0 := by
  intro f
  induction f with
  | zero =>
    intro G i best hbest hi a b hres
    rw [bestRunAuxF] at hres
    exact hbest a b hres
  | succ f ih =>
    intro G i best hbest hi a b hres
    rcases hgd : G.drop i with - | ⟨g, rest⟩
    · rw [hgd] at hres
      rw [bestRunAuxF] at hres
      exact hbest a b hres
      omega
    · have hi' : i < G.length := by
        by_contra hcon
        have hnil : G.drop i = [] := List.drop_eq_nil_of_le (by omega)
        rw [hgd] at hnil
        simp at hnil
      rw [hgd, bestRunAuxF] at hres
      by_cases hcond : countZeroGroups (g :: rest) > 0 ∧
          countZeroGroups (g :: rest) > runLen best
      · rw [if_pos hcond] at hres
        have hjle : countZeroGroups (g :: rest) ≤ (g :: rest).length :=
          countZeroGroups_le _
        have hlen : (g :: rest).length = G.length - i := by
          rw [← hgd, List.length_drop]
        have hdd : (g :: rest).drop (countZeroGroups (g :: rest)) =
            G.drop (i + countZeroGroups (g :: rest)) := by
          rw [← hgd, List.drop_drop, Nat.add_comm]
        have hzeros : (G.drop i).take (countZeroGroups (g :: rest)) =
            List.replicate (countZeroGroups (g :: rest)) 0 := by
          rw [hgd]
          exact countZeroGroups_take _
        have hbest' : ∀ a b,
            (some (i, i + countZeroGroups (g :: rest)) : Option (Nat × Nat)) =
              some (a, b) →
            a ≤ b ∧ b ≤ G.length ∧
            (G.drop a).take (b - a) = List.replicate (b - a) 0 := by
          intro a' b' h'
          simp only [Option.some.injEq, Prod.mk.injEq] at h'
          obtain ⟨rfl, rfl⟩ := h'
          refine ⟨by omega, by omega, ?_⟩
          simpa [Nat.add_sub_cancel_left] using hzeros
        rw [hdd] at hres
        exact ih G (i + countZeroGroups (g :: rest))
          (some (i, i + countZeroGroups (g :: rest))) hbest' (by omega) a b hres
      · rw [if_neg hcond] at hres
        have hdd : rest = G.drop (i + 1) := by
          have h1 : (g :: rest).drop 1 = rest := rfl
          rw [← h1, ← hgd, List.drop_drop, Nat.add_comm]
        rw [hdd] at hres
        exact ih G (i + 1) best hbest (by omega) a b hres

/-- Soundness of `bestRun`: a reported run has at least two groups, stays
inside the list, and splits it into prefix, zeros, suffix. -/
theorem bestRun_sound (gs : List Nat) (e0 e1 : Nat)
    (h : bestRun gs = some (e0, e1)) :
    e0 + 2 ≤ e1 ∧ e1 ≤ gs.length ∧
    gs = gs.take e0 ++ List.replicate (e1 - e0) 0 ++ gs.drop e1 := by
  rw [bestRun] at h
  split at h
  · exact absurd h (by simp)
  · rename_i a b hba
    by_cases hle : b - a ≤ 1
    · rw [if_pos hle] at h
      exact absurd h (by simp)
    · rw [if_neg hle] at h
      simp only [Option.some.injEq, Prod.mk.injEq] at h
      obtain ⟨rfl, rfl⟩ := h
      have hstart : bestRunAuxF (gs.length + 1) (gs.drop 0) 0 none = some (a, b) := by
        rw [List.drop_zero]
        exact hba
      obtain ⟨hab, hble, hz⟩ := bestRunAuxF_sound (gs.length + 1) gs 0 none
        (by intro x y hh; exact absurd hh (by simp)) (Nat.zero_le _) a b hstart
      refine ⟨by omega, hble, ?_⟩
      have h2 : (gs.drop a).drop (b - a) = gs.drop b := by
        rw [List.drop_drop]
        congr 1
        omega
      have h3 : gs.drop a = List.replicate (b - a) 0 ++ gs.drop b := by
        conv_lhs => rw [← List.take_append_drop (b - a) (gs.drop a)]
        rw [hz, h2]
      calc gs = gs.take a ++ gs.drop a := (List.take_append_drop a gs).symm
        _ = gs.take a ++ (List.replicate (b - a) 0 ++ gs.drop b) := by rw [h3]
        _ = gs.take a ++ List.replicate (b - a) 0 ++ gs.drop b := by
            rw [List.append_assoc]

/-! ### The joined-groups string -/

/-- A single group prints as its hex digits. -/
theorem tailStr_single (g : Nat) : tailStr [g] = hexStr g := rfl

/-- The first group is followed by a colon and the rest. -/
theorem tailStr_cons (g r1 : Nat) (rs : List Nat) :
    tailStr (g :: r1 :: rs) = hexStr g ++ ':' :: tailStr (r1 :: rs) := rfl

/-- The joined string of a non-empty group list is non-empty. -/
theorem tailStr_ne_nil (g : Nat) (rest : List Nat) : tailStr (g :: rest) ≠ [] := by
  rcases rest with - | ⟨r1, rs⟩
  · rw [tailStr_single]
    exact hexStr_ne_nil g
  · rw [tailStr_cons]
    intro h
    rcases List.append_eq_nil.1 h with ⟨h1, -⟩
    exact hexStr_ne_nil g h1

/-- The joined string starts with a hex digit. -/
theorem tailStr_head_hex (g : Nat) (rest : List Nat) :
    ∀ ch, (tailStr (g :: rest)).head? = some ch → ch ∈ "0123456789abcdef".data := by
  intro ch h
  rcases hh : hexStr g with - | ⟨c0, cs⟩
  · exact absurd hh (hexStr_ne_nil g)
  · have hc0 : c0 ∈ "0123456789abcdef".data := hexStr_subset g c0 (by rw [hh]; simp)
    rcases rest with - | ⟨r1, rs⟩
    · rw [tailStr_single, hh] at h
      simp only [List.head?_cons, Option.some.injEq] at h
      rw [← h]
      exact hc0
    · rw [tailStr_cons, hh] at h
      simp only [List.cons_append, List.head?_cons, Option.some.injEq] at h
      rw [← h]
      exact hc0

/-- The joined string never starts with a colon. -/
theorem tailStr_head_ne_colon (g : Nat) (rest : List Nat) :
    (tailStr (g :: rest)).head? ≠ some ':' := by
  intro h
  have := tailStr_head_hex g rest ':' h
  exact absurd this (by decide)

/-- There are at most as many groups as characters, up to one. -/
theorem tailStr_length : ∀ (gs : List Nat), gs.length ≤ (tailStr gs).length + 1
  | [] => by simp [tailStr, intercalateChar]
  | [g] => by
    rw [tailStr_single]
    simp
  | g :: r1 :: rs => by
    rw [tailStr_cons]
    have ih := tailStr_length (r1 :: rs)
    have h1 : 1 ≤ (hexStr g).length :=
      List.length_pos.2 (hexStr_ne_nil g)
    simp only [List.length_cons, List.length_append] at ih ⊢
    omega

/-! ### parseIPv6 against the RFC 5952 formatter -/

/-- One unfolding of the `parseIPv6` loop once `xtoi` is known. -/
theorem parseIPv6LoopF_step (f : Nat) (s : List Char) (acc : List Nat)
    (ell : Option Nat) (g L : Nat) (hacc : acc.length < 16)
    (hx : xtoi s = (g, L, true)) :
    parseIPv6LoopF (f + 1) s acc ell =
      (if ¬true ∨ g > 0xFFFF then none
       else if (s.drop L).head? = some '.' then
         if ell = none ∧ acc.length ≠ 12 then none
         else if acc.length + 4 > 16 then none
         else match parseIPv4 s with
           | none => none
           | some ip4 => some (acc ++ ip4.drop 12, ell)
       else
         if s.drop L = [] then some (acc ++ [g / 256, g % 256], ell)
         else if (s.drop L).head? ≠ some ':' ∨ (s.drop L).length = 1 then none
         else if ((s.drop L).drop 1).head? = some ':' then
           if ell.isSome then none
           else if (s.drop L).drop 2 = [] then
             some (acc ++ [g / 256, g % 256], some (acc ++ [g / 256, g % 256]).length)
           else parseIPv6LoopF f ((s.drop L).drop 2) (acc ++ [g / 256, g % 256])
             (some (acc ++ [g / 256, g % 256]).length)
         else parseIPv6LoopF f ((s.drop L).drop 1) (acc ++ [g / 256, g % 256]) ell) := by
  rw [parseIPv6LoopF, if_neg (by omega), hx]

/-- The loop consumes a colon-joined group list wholesale, appending its
bytes. -/
theorem parseIPv6LoopF_tail : ∀ (gs : List Nat) (f : Nat) (acc : List Nat)
    (ell : Option Nat),
    (∀ g ∈ gs, g < 65536) → gs ≠ [] →
    acc.length + 2 * gs.length ≤ 16 → gs.length ≤ f →
    parseIPv6LoopF f (tailStr gs) acc ell = some (acc ++ bytesOfGroups gs, ell)
  | [], _, _, _, _, hne, _, _ => absurd rfl hne
  | g :: rest, f, acc, ell, hb, _, hlen, hf => by
    rcases f with - | f
    · simp at hf
    · have hg : g < 65536 := hb g (by simp)
      have hacc : acc.length < 16 := by
        simp only [List.length_cons] at hlen
        omega
      rcases rest with - | ⟨r1, rs⟩
      · have hx : xtoi (tailStr [g]) = (g, (hexStr g).length, true) := by
          rw [tailStr_single]
          have := xtoi_hexStr g [] (by unfold big; omega) (fun c hc => by simp at hc)
          simpa using this
        rw [parseIPv6LoopF_step f _ acc ell g _ hacc hx]
        rw [if_neg (by simp; omega)]
        have hdrop : (tailStr [g]).drop (hexStr g).length = [] := by
          rw [tailStr_single]
          exact List.drop_length _
        rw [hdrop]
        rw [if_neg (by simp)]
        rw [if_pos rfl]
        rfl
      · have ht := tailStr_ne_nil r1 rs
        have htl : 1 ≤ (tailStr (r1 :: rs)).length := List.length_pos.2 ht
        have hx : xtoi (tailStr (g :: r1 :: rs)) = (g, (hexStr g).length, true) := by
          rw [tailStr_cons]
          exact xtoi_hexStr g (':' :: tailStr (r1 :: rs)) (by unfold big; omega)
            (fun c hc => by
              simp only [List.head?_cons, Option.some.injEq] at hc
              rw [← hc]
              decide)
        have hdrop : (tailStr (g :: r1 :: rs)).drop (hexStr g).length =
            ':' :: tailStr (r1 :: rs) := by
          rw [tailStr_cons]
          exact List.drop_left _ _
        rw [parseIPv6LoopF_step f _ acc ell g _ hacc hx]
        rw [if_neg (by simp; omega)]
        rw [hdrop]
        rw [if_neg (by
          intro hcon
          simp only [List.head?_cons, Option.some.injEq] at hcon
          exact absurd hcon (by decide))]
        rw [if_neg (by simp)]
        rw [if_neg (by
          simp only [List.head?_cons, List.length_cons]
          push_neg
          exact ⟨rfl, by omega⟩)]
        rw [if_neg (by
          show ¬((':' :: tailStr (r1 :: rs)).drop 1).head? = some ':'
          simp only [List.drop_one, List.tail_cons]
          exact tailStr_head_ne_colon r1 rs)]
        have hd1 : (':' :: tailStr (r1 :: rs)).drop 1 = tailStr (r1 :: rs) := rfl
        rw [hd1]
        rw [parseIPv6LoopF_tail (r1 :: rs) f (acc ++ [g / 256, g % 256]) ell
          (fun x hx => hb x (by simp [hx]))
          (by simp)
          (by simp only [List.length_append, List.length_cons] at hlen ⊢; simp; omega)
          (by simp only [List.length_cons] at hf ⊢; omega)]
        simp [bytesOfGroups, List.append_assoc]

/-- The loop consumes groups, a `::` marker, and trailing groups,
recording the marker position. -/
theorem parseIPv6LoopF_ell : ∀ (gs1 : List Nat) (f : Nat) (gs2 acc : List Nat),
    (∀ g ∈ gs1, g < 65536) → (∀ g ∈ gs2, g < 65536) → gs1 ≠ [] →
    acc.length + 2 * gs1.length + 2 * gs2.length ≤ 12 →
    gs1.length + gs2.length ≤ f →
    parseIPv6LoopF f (tailStr gs1 ++ ':' :: ':' :: tailStr gs2) acc none =
      some (acc ++ bytesOfGroups gs1 ++ bytesOfGroups gs2,
        some (acc.length + 2 * gs1.length))
  | [], _, _, _, _, _, hne, _, _ => absurd rfl hne
  | g :: rest, f, gs2, acc, hb1, hb2, _, hlen, hf => by
    rcases f with - | f
    · simp at hf
    · have hg : g < 65536 := hb1 g (by simp)
      have hacc : acc.length < 16 := by
        simp only [List.length_cons] at hlen
        omega
      rcases rest with - | ⟨r1, rs⟩
      · -- last group before the marker
        have hx : xtoi (tailStr [g] ++ ':' :: ':' :: tailStr gs2) =
            (g, (hexStr g).length, true) := by
          rw [tailStr_single]
          exact xtoi_hexStr g (':' :: ':' :: tailStr gs2) (by unfold big; omega)
            (fun c hc => by
              simp only [List.head?_cons, Option.some.injEq] at hc
              rw [← hc]
              decide)
        have hdrop : (tailStr [g] ++ ':' :: ':' :: tailStr gs2).drop (hexStr g).length =
            ':' :: ':' :: tailStr gs2 := by
          rw [tailStr_single]
          exact List.drop_left _ _
        rw [parseIPv6LoopF_step f _ acc none g _ hacc hx]
        rw [if_neg (by simp; omega)]
        rw [hdrop]
        rw [if_neg (by
          intro hcon
          simp only [List.head?_cons, Option.some.injEq] at hcon
          exact absurd hcon (by decide))]
        rw [if_neg (by simp)]
        rw [if_neg (by
          simp only [List.head?_cons, List.length_cons]
          push_neg
          exact ⟨rfl, by omega⟩)]
        rw [if_pos (by rw [List.drop_one, List.tail_cons]; rfl)]
        rw [if_neg (by simp)]
        rcases hgs2 : gs2 with - | ⟨h2, t2⟩
        · rw [if_pos (by simp [tailStr, intercalateChar])]
          simp [bytesOfGroups, List.length_append]
        · have hd2 : (':' :: ':' :: tailStr gs2).drop 2 = tailStr gs2 := rfl
          rw [← hgs2]
          rw [show ((':' :: ':' :: tailStr gs2 : List Char)).drop 2 = tailStr gs2 from rfl]
          rw [if_neg (by rw [hgs2]; exact tailStr_ne_nil h2 t2)]
          rw [parseIPv6LoopF_tail gs2 f (acc ++ [g / 256, g % 256])
            (some (acc ++ [g / 256, g % 256]).length)
            hb2
            (by rw [hgs2]; simp)
            (by simp only [List.length_append, List.length_cons] at hlen ⊢; simp; omega)
            (by simp only [List.length_cons] at hf ⊢; omega)]
          simp [bytesOfGroups, List.append_assoc, List.length_append]
      · -- a group strictly before the marker
        have ht := tailStr_ne_nil r1 rs
        have htl : 1 ≤ (tailStr (r1 :: rs)).length := List.length_pos.2 ht
        have hx : xtoi (tailStr (g :: r1 :: rs) ++ ':' :: ':' :: tailStr gs2) =
            (g, (hexStr g).length, true) := by
          rw [tailStr_cons, List.append_assoc]
          exact xtoi_hexStr g (':' :: (tailStr (r1 :: rs) ++ ':' :: ':' :: tailStr gs2))
            (by unfold big; omega)
            (fun c hc => by
              simp only [List.cons_append, List.head?_cons, Option.some.injEq] at hc
              rw [← hc]
              decide)
        have hdrop : (tailStr (g :: r1 :: rs) ++ ':' :: ':' :: tailStr gs2).drop
            (hexStr g).length =
            ':' :: (tailStr (r1 :: rs) ++ ':' :: ':' :: tailStr gs2) := by
          rw [tailStr_cons, List.append_assoc, List.cons_append]
          exact List.drop_left _ _
        have hhd : (tailStr (r1 :: rs) ++ ':' :: ':' :: tailStr gs2).head? ≠ some ':' := by
          rcases hts : tailStr (r1 :: rs) with - | ⟨c0, cs⟩
          · exact absurd hts ht
          · intro hcon
            simp only [List.cons_append, List.head?_cons] at hcon
            have := tailStr_head_hex r1 rs c0 (by rw [hts]; simp)
            simp only [Option.some.injEq] at hcon
            rw [hcon] at this
            exact absurd this (by decide)
        rw [parseIPv6LoopF_step f _ acc none g _ hacc hx]
        rw [if_neg (by simp; omega)]
        rw [hdrop]
        rw [if_neg (by
          intro hcon
          simp only [List.head?_cons, Option.some.injEq] at hcon
          exact absurd hcon (by decide))]
        rw [if_neg (by simp)]
        rw [if_neg (by
          simp only [List.head?_cons, List.length_cons, List.length_append]
          push_neg
          exact ⟨rfl, by omega⟩)]
        rw [if_neg (by
          simp only [List.drop_one, List.tail_cons]
          exact hhd)]
        rw [show ((':' :: (tailStr (r1 :: rs) ++ ':' :: ':' :: tailStr gs2) : List Char)).drop 1
          = tailStr (r1 :: rs) ++ ':' :: ':' :: tailStr gs2 from rfl]
        rw [parseIPv6LoopF_ell (r1 :: rs) f gs2 (acc ++ [g / 256, g % 256])
          (fun x hx => hb1 x (by simp [hx])) hb2 (by simp)
          (by simp only [List.length_append, List.length_cons] at hlen ⊢; simp; omega)
          (by simp only [List.length_cons] at hf ⊢; omega)]
        simp only [bytesOfGroups, List.append_assoc, List.length_append,
          List.length_cons, List.cons_append, List.nil_append,
          Option.some.injEq, Prod.mk.injEq, List.length_nil]
        exact ⟨trivial, by omega⟩

/-- `parseIPv6` on input not starting with `::` goes to the main loop. -/
theorem parseIPv6_default (s : List Char) (h : ∀ r, s ≠ ':' :: ':' :: r) :
    parseIPv6 s = parseIPv6Finish (parseIPv6Loop s [] none) := by
  unfold parseIPv6
  split
  · rename_i rest
    exact absurd rfl (h rest)
  · rfl

/-- `parseIPv6` reads `formatIPv6` back on 16-byte addresses. -/
theorem parseIPv6_format (p : List Nat) (hlen : p.length = 16)
    (hb : ∀ x ∈ p, x < 256) :
    parseIPv6 (formatIPv6 p) = some p := by
  have hglen : (groupsOf p).length = 8 := by rw [groupsOf_length, hlen]
  have hglt : ∀ g ∈ groupsOf p, g < 65536 := groupsOf_lt p hb
  have hbytes : bytesOfGroups (groupsOf p) = p := by
    refine bytesOfGroups_groupsOf p hb ?_
    omega
  have htdef : ∀ X : List Nat, intercalateChar ':' (X.map hexStr) = tailStr X :=
    fun _ => rfl
  rcases hbr : bestRun (groupsOf p) with - | ⟨e0, e1⟩
  · -- no zero run compressed: the plain colon-joined form
    have hfmt : formatIPv6 p = tailStr (groupsOf p) := by
      simp only [formatIPv6, hbr]
      exact htdef _
    rcases hgs : groupsOf p with - | ⟨g0, grest⟩
    · rw [hgs] at hglen
      simp at hglen
    rw [hfmt, hgs]
    rw [parseIPv6_default _ (by
      intro r heq
      have := tailStr_head_ne_colon g0 grest
      rw [heq] at this
      simp at this)]
    rw [parseIPv6Loop]
    rw [parseIPv6LoopF_tail (g0 :: grest) _ [] none
      (by rw [← hgs]; exact hglt) (by simp)
      (by rw [← hgs]; simp [hglen])
      (by
        have h1 := tailStr_length (g0 :: grest)
        omega)]
    rw [← hgs, hbytes]
    simp only [List.nil_append]
    rw [parseIPv6Finish, if_neg (by omega)]
  · obtain ⟨h2le, hle8, hdec⟩ := bestRun_sound _ _ _ hbr
    rw [hglen] at hle8
    have hfmt : formatIPv6 p =
        tailStr ((groupsOf p).take e0) ++ ':' :: ':' :: tailStr ((groupsOf p).drop e1) := by
      simp only [formatIPv6, hbr]
      rw [htdef, htdef]
    have hlt1 : ∀ g ∈ (groupsOf p).take e0, g < 65536 :=
      fun g hg => hglt g (List.mem_of_mem_take hg)
    have hlt2 : ∀ g ∈ (groupsOf p).drop e1, g < 65536 :=
      fun g hg => hglt g (List.mem_of_mem_drop hg)
    have hlen1 : ((groupsOf p).take e0).length = e0 := by
      rw [List.length_take, hglen]
      omega
    have hlen2 : ((groupsOf p).drop e1).length = 8 - e1 := by
      rw [List.length_drop, hglen]
    have hpbytes : p = bytesOfGroups ((groupsOf p).take e0) ++
        List.replicate (2 * (e1 - e0)) 0 ++ bytesOfGroups ((groupsOf p).drop e1) := by
      calc p = bytesOfGroups (groupsOf p) := hbytes.symm
        _ = bytesOfGroups ((groupsOf p).take e0 ++ List.replicate (e1 - e0) 0 ++
              (groupsOf p).drop e1) := by rw [← hdec]
        _ = bytesOfGroups ((groupsOf p).take e0) ++
              List.replicate (2 * (e1 - e0)) 0 ++
              bytesOfGroups ((groupsOf p).drop e1) := by
            rw [bytesOfGroups_append, bytesOfGroups_append, bytesOfGroups_replicate]
    by_cases he0 : e0 = 0
    · subst he0
      rw [hfmt]
      rw [show ((groupsOf p).take 0 : List Nat) = [] from rfl]
      rw [show (tailStr [] : List Char) = [] from rfl, List.nil_append]
      by_cases he1 : e1 = 8
      · subst he1
        have hd8 : (groupsOf p).drop 8 = [] := by
          apply List.drop_eq_nil_of_le
          omega
        rw [hd8]
        rw [show (tailStr [] : List Char) = [] from rfl]
        rw [show parseIPv6 (':' :: ':' :: ([] : List Char)) =
          some (List.replicate 16 0) from rfl]
        have : p = List.replicate 16 0 := by
          rw [hpbytes, hd8]
          simp [bytesOfGroups]
        rw [this]
      · rcases hgd : (groupsOf p).drop e1 with - | ⟨d1, dr⟩
        · rw [hgd] at hlen2
          simp at hlen2
          exact absurd hlen2 (by omega)
        · rw [show parseIPv6 (':' :: ':' :: tailStr (d1 :: dr)) =
            (if tailStr (d1 :: dr) = [] then some (List.replicate 16 0)
             else parseIPv6Finish (parseIPv6Loop (tailStr (d1 :: dr)) [] (some 0)))
            from rfl]
          rw [if_neg (tailStr_ne_nil d1 dr)]
          rw [parseIPv6Loop]
          rw [parseIPv6LoopF_tail (d1 :: dr) _ [] (some 0)
            (by rw [← hgd]; exact hlt2) (by simp)
            (by
              rw [← hgd]
              simp only [List.length_nil, hlen2]
              omega)
            (by
              have h1 := tailStr_length (d1 :: dr)
              omega)]
          rw [parseIPv6Finish]
          rw [if_pos (by
            rw [List.nil_append, ← hgd, bytesOfGroups_length, hlen2]
            omega)]
          simp only [List.take_zero, List.drop_zero, List.nil_append]
          rw [hgd] at hlen2
          have hrep : 16 - (bytesOfGroups (d1 :: dr)).length = 2 * (e1 - 0) := by
            rw [bytesOfGroups_length, hlen2]
            omega
          rw [hrep]
          conv_rhs => rw [hpbytes, hgd]
          rw [show ((groupsOf p).take 0 : List Nat) = [] from rfl]
          simp only [bytesOfGroups, List.nil_append]
    · rcases hgt : (groupsOf p).take e0 with - | ⟨t1, tr⟩
      · rw [hgt] at hlen1
        simp at hlen1
        exact absurd hlen1 (by omega)
      · rw [hfmt, hgt]
        rw [parseIPv6_default _ (by
          intro r heq
          have hcol := tailStr_head_ne_colon t1 tr
          rcases hts : tailStr (t1 :: tr) with - | ⟨c0, cs⟩
          · exact tailStr_ne_nil t1 tr hts
          · rw [hts] at heq
            simp only [List.cons_append] at heq
            have hc0 : c0 = ':' := by
              have := congrArg List.head? heq
              simpa using this
            rw [hts, hc0] at hcol
            simp at hcol)]
        rw [parseIPv6Loop]
        rw [← hgt]
        rw [parseIPv6LoopF_ell ((groupsOf p).take e0) _ ((groupsOf p).drop e1) []
          hlt1 hlt2
          (by rw [hgt]; simp)
          (by
            simp only [List.length_nil, hlen1, hlen2]
            omega)
          (by
            have h1 := tailStr_length ((groupsOf p).take e0)
            have h2 := tailStr_length ((groupsOf p).drop e1)
            simp only [List.length_append, List.length_cons, hlen1, hlen2] at h1 h2 ⊢
            omega)]
        rw [parseIPv6Finish]
        rw [if_pos (by
          simp only [List.nil_append, List.length_append,
            bytesOfGroups_length, hlen1, hlen2]
          omega)]
        simp only [List.length_nil, List.nil_append, Nat.zero_add]
        rw [hlen1]
        have htake : (bytesOfGroups ((groupsOf p).take e0) ++
            bytesOfGroups ((groupsOf p).drop e1)).take (2 * e0) =
            bytesOfGroups ((groupsOf p).take e0) := by
          rw [show 2 * e0 = (bytesOfGroups ((groupsOf p).take e0)).length from by
            rw [bytesOfGroups_length, hlen1]]
          exact List.take_left _ _
        have hdrop : (bytesOfGroups ((groupsOf p).take e0) ++
            bytesOfGroups ((groupsOf p).drop e1)).drop (2 * e0) =
            bytesOfGroups ((groupsOf p).drop e1) := by
          rw [show 2 * e0 = (bytesOfGroups ((groupsOf p).take e0)).length from by
            rw [bytesOfGroups_length, hlen1]]
          exact List.drop_left _ _
        rw [htake, hdrop]
        have hrep : 16 - (bytesOfGroups ((groupsOf p).take e0) ++
            bytesOfGroups ((groupsOf p).drop e1)).length = 2 * (e1 - e0) := by
          simp only [List.length_append, bytesOfGroups_length, hlen1, hlen2]
          omega
        rw [hrep]
        conv_rhs => rw [hpbytes]

/-- `indexOfChar` misses an absent character. -/
theorem indexOfChar_notin (c : Char) : ∀ (s : List Char), c ∉ s →
    indexOfChar c s = none
  | [], _ => rfl
  | x :: xs, h => by
    have hx : x ≠ c := by
      intro e
      exact h (by simp [e])
    rw [indexOfChar, if_neg hx, indexOfChar_notin c xs
      (fun hm => h (List.mem_cons_of_mem x hm))]
    rfl

/-- `lastIndexOfChar` misses an absent character. -/
theorem lastIndexOfChar_notin (c : Char) (s : List Char) (h : c ∉ s) :
    lastIndexOfChar c s = none := by
  rw [lastIndexOfChar, indexOfChar_notin c s.reverse (by
    intro hm
    exact h (List.mem_reverse.1 hm))]

/-- `splitHostZone` is the identity without a `%`. -/
theorem stripZone_notin (s : List Char) (h : '%' ∉ s) : stripZone s = s := by
  rw [stripZone, lastIndexOfChar_notin '%' s h]

/-- `parseCIDR` reads back an RFC5952/prefix string. -/
theorem parseCIDR_format6 (p : List Nat) (k : Nat) (hlen : p.length = 16)
    (hb : ∀ x ∈ p, x < 256) (hk : k ≤ 128) :
    parseCIDR (formatIPv6 p ++ '/' :: uitoa k) =
      some (p, ⟨maskIP p (cidrMask k 128), cidrMask k 128⟩) := by
  have hsub := formatIPv6_subset p
  have hslash : '/' ∉ formatIPv6 p := fun hm => absurd (hsub _ hm) (by decide)
  have hdotn : '.' ∉ formatIPv6 p := fun hm => absurd (hsub _ hm) (by decide)
  have hpct : '%' ∉ formatIPv6 p := fun hm => absurd (hsub _ hm) (by decide)
  have hidx := indexOfChar_append '/' (formatIPv6 p) (uitoa k) hslash
  have hdt : dtoi (uitoa k) = (k, (uitoa k).length, true) := by
    have := dtoi_uitoa k [] (by unfold big; omega) (fun ch hch => by simp at hch)
    simpa using this
  have hz6 : parseIPv6Zone (formatIPv6 p) = some p := by
    rw [parseIPv6Zone, stripZone_notin _ hpct]
    exact parseIPv6_format p hlen hb
  rw [parseCIDR, hidx]
  simp only [List.take_left, drop_sep, parseIPv4_nodot _ hdotn, hz6, hdt]
  rw [if_neg (by simp; omega)]

/-- `net.IP.Mask` on matching 4-byte forms is bytewise AND. -/
theorem maskIP_eq_zip4 (ip mask : List Nat) (hip : ip.length = 4)
    (hm : mask.length = 4) :
    maskIP ip mask = List.zipWith Nat.land ip mask := by
  simp [maskIP, hip, hm]

/-- `net.IP.Mask` aligns a 4-byte mask with the 16-byte IPv4 form. -/
theorem maskIP_v4in6_eq_zip (ip mask : List Nat) (hip : ip.length = 4)
    (hm : mask.length = 4) :
    maskIP (v4in6 ++ ip) mask = List.zipWith Nat.land ip mask := by
  have ht : (v4in6 ++ ip).take 12 = v4in6 := by
    rw [show (12 : Nat) = v4in6.length from rfl, List.take_left]
  have hd : (v4in6 ++ ip).drop 12 = ip := by
    rw [show (12 : Nat) = v4in6.length from rfl, List.drop_left]
  simp [maskIP, hip, hm, ht, hd, show (v4in6 ++ ip).length = 16 by simp [hip, v4in6]]

/-- `parseCIDR` reads back `IPNet.String` of a canonical IPv4 network,
producing the very same network. -/
theorem parseCIDR_canonical4 (n : IPNet) (hc : canonical4 n = true) :
    parseCIDR (ipnetString n) = some (v4in6 ++ n.ip, n) := by
  simp only [canonical4, Bool.and_eq_true, beq_iff_eq, List.all_eq_true,
    List.any_eq_true, decide_eq_true_eq] at hc
  obtain ⟨⟨⟨hlen4, hall⟩, ⟨k, hkmem, hmask⟩⟩, hmip⟩ := hc
  have hk : k ≤ 32 := by
    have := List.mem_range.1 hkmem
    omega
  rcases n with ⟨ip, mask⟩
  simp only at hlen4 hall hmask hmip ⊢
  subst hmask
  rcases ip with - | ⟨a, ip⟩
  · simp at hlen4
  rcases ip with - | ⟨b, ip⟩
  · simp at hlen4
  rcases ip with - | ⟨c, ip⟩
  · simp at hlen4
  rcases ip with - | ⟨d, ip⟩
  · simp at hlen4
  rcases ip with - | ⟨e, ip⟩
  swap
  · simp at hlen4
  have ha : a < 256 := hall a (by simp)
  have hb : b < 256 := hall b (by simp)
  have hcc : c < 256 := hall c (by simp)
  have hd : d < 256 := hall d (by simp)
  rw [ipnetString_canonical4 [a, b, c, d] k rfl hk]
  rw [parseCIDR_format4 a b c d k (by omega) (by omega) (by omega) (by omega) hk]
  have hml : (cidrMask k 32).length = 4 := cidrMask_length4 k hk
  have hmz : maskIP (v4in6 ++ [a, b, c, d]) (cidrMask k 32) =
      maskIP [a, b, c, d] (cidrMask k 32) := by
    rw [maskIP_v4in6_eq_zip [a, b, c, d] (cidrMask k 32) (by simp) hml,
      maskIP_eq_zip4 [a, b, c, d] (cidrMask k 32) (by simp) hml]
  rw [hmz, hmip]

/-- `net.IP.Mask` on matching 16-byte forms is bytewise AND. -/
theorem maskIP_eq_zip16 (ip mask : List Nat) (hip : ip.length = 16)
    (hm : mask.length = 16) :
    maskIP ip mask = List.zipWith Nat.land ip mask := by
  simp [maskIP, hip, hm]

/-- `parseCIDR` reads back `IPNet.String` of a canonical IPv6 network,
producing the very same network. -/
theorem parseCIDR_canonical6 (n : IPNet) (hc : canonical6 n = true) :
    parseCIDR (ipnetString n) = some (n.ip, n) := by
  simp only [canonical6, Bool.and_eq_true, beq_iff_eq, List.all_eq_true,
    List.any_eq_true, decide_eq_true_eq, Option.isNone_iff_eq_none] at hc
  obtain ⟨⟨⟨⟨hlen16, hall⟩, hto4⟩, ⟨k, hkmem, hmask⟩⟩, hmip⟩ := hc
  have hk : k ≤ 128 := by
    have := List.mem_range.1 hkmem
    omega
  rcases n with ⟨ip, mask⟩
  simp only at hlen16 hall hto4 hmask hmip ⊢
  subst hmask
  rw [ipnetString_canonical6 ip k hlen16 hto4 hk]
  rw [parseCIDR_format6 ip k hlen16 hall hk]
  rw [hmip]

/-! ### strconv round trips -/

/-- Digit characters map back through `decVal`. -/
theorem mapM_decVal_digits : ∀ (ds : List Nat), (∀ d ∈ ds, d < 10) →
    (ds.map decDigitChar).mapM decVal = some ds
  | [], _ => rfl
  | d :: ds, h => by
    rw [List.map_cons]
    simp only [List.mapM_cons, decVal_decDigitChar d (h d (by simp)),
      mapM_decVal_digits ds (fun x hx => h x (by simp [hx]))]
    rfl

/-- The all-digit parse reads `uitoa` back. -/
theorem parseDecAll_uitoa (n : Nat) : parseDecAll (uitoa n) = some n := by
  have hds := toDigitsDecF_lt (n + 1) n
  have hval : (toDigitsDec n).foldl (fun a d => a * 10 + d) 0 = n :=
    toDigitsDecF_val (n + 1) n (Nat.lt_succ_self n)
  have hmm : ((toDigitsDec n).map decDigitChar).mapM decVal = some (toDigitsDec n) :=
    mapM_decVal_digits _ hds
  rcases hu : uitoa n with - | ⟨c, cs⟩
  · exact absurd hu (uitoa_ne_nil n)
  · rw [parseDecAll, ← hu]
    rw [show uitoa n = (toDigitsDec n).map decDigitChar from rfl, hmm]
    simp [hval]
    exact fun hcon => List.noConfusion hcon

/-- `strconv.Atoi` reads `Itoa` back. -/
theorem atoi_itoa (i : Int) : atoi (itoa i) = some i := by
  rw [itoa]
  by_cases hneg : i < 0
  · rw [if_pos hneg, atoi, if_pos rfl, parseDecAll_uitoa]
    have h1 : -((i.natAbs : Nat) : Int) = i := by omega
    simp [h1]
    rw [abs_of_neg hneg]
    ring
  · rw [if_neg hneg]
    rcases hu : uitoa i.toNat with - | ⟨c, cs⟩
    · exact absurd hu (uitoa_ne_nil _)
    · have hc : c ∈ "0123456789".data := uitoa_subset _ c (by rw [hu]; simp)
      have hcm : c ≠ '-' := by
        intro e
        rw [e] at hc
        exact absurd hc (by decide)
      have hcp : c ≠ '+' := by
        intro e
        rw [e] at hc
        exact absurd hc (by decide)
      rw [atoi, if_neg hcm, if_neg hcp, ← hu, parseDecAll_uitoa]
      have h1 : ((i.toNat : Nat) : Int) = i := by omega
      simp [h1]

/-! ### splitLines against encodeLines -/

/-- Splitting newline-joined lines yields the lines plus a final empty
part. -/
theorem splitOnChar_encodeLines : ∀ (ls : List (List Char)),
    (∀ l ∈ ls, '\n' ∉ l) →
    splitOnChar '\n' (encodeLines ls) = ls ++ [[]]
  | [], _ => rfl
  | l :: t, h => by
    rw [encodeLines_cons, splitOnChar_append '\n' l _ (h l (by simp)),
      splitOnChar_encodeLines t (fun x hx => h x (by simp [hx]))]
    rfl

/-- `dropCR` is the identity on lines not ending in a carriage return. -/
theorem map_dropCR_id : ∀ (ls : List (List Char)),
    (∀ l ∈ ls, l.getLast? ≠ some '\r') → ls.map dropCR = ls
  | [], _ => rfl
  | l :: t, h => by
    rw [List.map_cons, dropCR, if_neg (h l (by simp)),
      map_dropCR_id t (fun x hx => h x (by simp [hx]))]

/-- The scanner token stream of an encoded message is its line list. -/
theorem splitLines_encodeLines (ls : List (List Char))
    (h : ∀ l ∈ ls, '\n' ∉ l ∧ l.getLast? ≠ some '\r') :
    splitLines (encodeLines ls) = ls := by
  rw [splitLines]
  rw [splitOnChar_encodeLines ls (fun l hl => (h l hl).1)]
  rw [if_pos (by simp)]
  have hdl : (ls ++ [[]]).dropLast = ls := by simp
  rw [hdl]
  exact map_dropCR_id ls (fun l hl => (h l hl).2)

/-! ### Field lines and the parseRequestIP loop -/

/-- The last element of a list is a member. -/
theorem mem_of_getLast : ∀ (l : List Char) (c : Char), l.getLast? = some c → c ∈ l
  | [], c, h => by simp at h
  | [x], c, h => by
    simp only [List.getLast?_singleton, Option.some.injEq] at h
    simp [h]
  | x :: y :: t, c, h => by
    rw [List.getLast?_cons_cons] at h
    exact List.mem_cons_of_mem x (mem_of_getLast (y :: t) c h)

/-- A canonical IPv4 network prints with its prefix length. -/
theorem canonical4_string (n : IPNet) (hc : canonical4 n = true) :
    ∃ k ≤ 32, n.mask = cidrMask k 32 ∧
      ipnetString n = formatIPv4 n.ip ++ '/' :: uitoa k := by
  simp only [canonical4, Bool.and_eq_true, beq_iff_eq, List.all_eq_true,
    List.any_eq_true, decide_eq_true_eq] at hc
  obtain ⟨⟨⟨hlen4, hall⟩, ⟨k, hkmem, hmask⟩⟩, hmip⟩ := hc
  have hk : k ≤ 32 := by
    have := List.mem_range.1 hkmem
    omega
  refine ⟨k, hk, hmask, ?_⟩
  have := ipnetString_canonical4 n.ip k hlen4 hk
  rw [← hmask] at this
  rcases n with ⟨ip, mask⟩
  simpa using this

/-- A canonical IPv6 network prints with its prefix length. -/
theorem canonical6_string (n : IPNet) (hc : canonical6 n = true) :
    ∃ k ≤ 128, n.mask = cidrMask k 128 ∧
      ipnetString n = formatIPv6 n.ip ++ '/' :: uitoa k := by
  simp only [canonical6, Bool.and_eq_true, beq_iff_eq, List.all_eq_true,
    List.any_eq_true, decide_eq_true_eq, Option.isNone_iff_eq_none] at hc
  obtain ⟨⟨⟨⟨hlen16, hall⟩, hto4⟩, ⟨k, hkmem, hmask⟩⟩, hmip⟩ := hc
  have hk : k ≤ 128 := by
    have := List.mem_range.1 hkmem
    omega
  refine ⟨k, hk, hmask, ?_⟩
  have := ipnetString_canonical6 n.ip k hlen16 hto4 hk
  rw [← hmask] at this
  rcases n with ⟨ip, mask⟩
  simpa using this

/-- Characters of a canonical IPv4 network string. -/
theorem ipnetString4_subset (n : IPNet) (hc : canonical4 n = true) :
    ∀ c ∈ ipnetString n, c ∈ "./0123456789".data := by
  obtain ⟨k, hk, -, heq⟩ := canonical4_string n hc
  intro c hcin
  rw [heq] at hcin
  rcases List.mem_append.1 hcin with h | h
  · have := formatIPv4_subset n.ip c h
    simp at this ⊢
    tauto
  · rcases List.mem_cons.1 h with h | h
    · simp [h]
    · have := uitoa_subset k c h
      simp at this ⊢
      tauto

/-- Characters of a canonical IPv6 network string. -/
theorem ipnetString6_subset (n : IPNet) (hc : canonical6 n = true) :
    ∀ c ∈ ipnetString n, c ∈ ":/0123456789abcdef".data := by
  obtain ⟨k, hk, -, heq⟩ := canonical6_string n hc
  intro c hcin
  rw [heq] at hcin
  rcases List.mem_append.1 hcin with h | h
  · have := formatIPv6_subset n.ip c h
    simp at this ⊢
    tauto
  · rcases List.mem_cons.1 h with h | h
    · simp [h]
    · have := uitoa_subset k c h
      simp at this ⊢
      tauto

/-- The loop result does not depend on the fuel, with more fuel than
tokens. -/
theorem parseRequestIPLoopF_fuel : ∀ (f g : Nat) (p : KVParser) (rip : RequestIP),
    p.lines.length < f → p.lines.length < g →
    parseRequestIPLoopF f p rip = parseRequestIPLoopF g p rip := by
  intro f
  induction f with
  | zero => intro g p rip hf; omega
  | succ f ih =>
    intro g p rip hf hg
    rcases g with - | g
    · omega
    · rcases hk : kvNext p with ⟨b, q⟩
      rw [parseRequestIPLoopF, parseRequestIPLoopF, hk]
      cases b
      · rfl
      · dsimp only
        have hlt := kvNext_true_lines p (by rw [hk])
        rw [hk] at hlt
        simp only at hlt
        by_cases h4 : q.k = "ipv4".data
        · rw [if_pos h4, if_pos h4]
          apply ih
          · rw [kvIPNet_lines]
            omega
          · rw [kvIPNet_lines]
            omega
        · rw [if_neg h4, if_neg h4]
          by_cases h6 : q.k = "ipv6".data
          · rw [if_pos h6, if_pos h6]
            apply ih
            · rw [kvIPNet_lines]
              omega
            · rw [kvIPNet_lines]
              omega
          · rw [if_neg h6, if_neg h6]
            by_cases hs : q.k = "leasestart".data
            · rw [if_pos hs, if_pos hs]
              apply ih
              · rw [kvInt_lines]
                omega
              · rw [kvInt_lines]
                omega
            · rw [if_neg hs, if_neg hs]
              by_cases htm : q.k = "leasetime".data
              · rw [if_pos htm, if_pos htm]
                apply ih
                · rw [kvInt_lines]
                  omega
                · rw [kvInt_lines]
                  omega
              · rw [if_neg htm, if_neg htm]
                apply ih
                · omega
                · omega

/-- The loop stops at the blank terminator line. -/
theorem loop_step_stop (f : Nat) (p : KVParser) (rest : List (List Char))
    (rip : RequestIP) (hl : p.lines = [] :: rest) :
    parseRequestIPLoopF (f + 1) p rip = ({ p with lines := rest }, rip) := by
  rw [parseRequestIPLoopF, kvNext_step_empty p rest hl]

/-- One loop iteration over an `ipv4=` line carrying a canonical network. -/
theorem loop_step_ipv4 (f : Nat) (p : KVParser) (n : IPNet)
    (rest : List (List Char)) (rip : RequestIP)
    (hl : p.lines = ("ipv4=".data ++ ipnetString n) :: rest)
    (herr : p.err = none) (hc : canonical4 n = true) :
    parseRequestIPLoopF (f + 1) p rip =
      parseRequestIPLoopF f { p with lines := rest, k := "ipv4".data, v := ipnetString n }
        { rip with ipv4 := some n } := by
  have hnoeq : '=' ∉ ipnetString n := by
    intro hm
    exact absurd (ipnetString4_subset n hc '=' hm) (by decide)
  have hshape : ("ipv4=".data : List Char) ++ ipnetString n =
      "ipv4".data ++ '=' :: ipnetString n := by
    rw [show ("ipv4=".data : List Char) = "ipv4".data ++ ['='] from by decide]
    simp
  have hsplit : splitOnChar '=' ("ipv4=".data ++ ipnetString n) =
      ["ipv4".data, ipnetString n] := by
    rw [hshape, splitOnChar_append '=' _ _ (by decide), splitOnChar_notin '=' _ hnoeq]
  have hstep := kvNext_step_pair p _ rest "ipv4".data (ipnetString n) hl hsplit
    (by decide) (by decide)
  have hto4 : to4 n.ip = some n.ip := by
    have hlen4 : n.ip.length = 4 := by
      simp only [canonical4, Bool.and_eq_true, beq_iff_eq] at hc
      exact hc.1.1.1
    rw [to4, if_pos hlen4]
  have hkv : kvIPNet 4 { p with lines := rest, k := "ipv4".data, v := ipnetString n } =
      (some n, { p with lines := rest, k := "ipv4".data, v := ipnetString n }) := by
    simp only [kvIPNet]
    rw [if_neg (by simp [herr])]
    simp only [parseCIDR_canonical4 n hc]
    rw [if_pos (by decide)]
    rw [if_neg (by simp [hto4])]
  rw [parseRequestIPLoopF, hstep]
  dsimp only
  rw [if_pos (by decide)]
  rw [hkv]

/-- One loop iteration over an `ipv6=` line carrying a canonical network. -/
theorem loop_step_ipv6 (f : Nat) (p : KVParser) (n : IPNet)
    (rest : List (List Char)) (rip : RequestIP)
    (hl : p.lines = ("ipv6=".data ++ ipnetString n) :: rest)
    (herr : p.err = none) (hc : canonical6 n = true) :
    parseRequestIPLoopF (f + 1) p rip =
      parseRequestIPLoopF f { p with lines := rest, k := "ipv6".data, v := ipnetString n }
        { rip with ipv6 := some n } := by
  have hnoeq : '=' ∉ ipnetString n := by
    intro hm
    exact absurd (ipnetString6_subset n hc '=' hm) (by decide)
  have hshape : ("ipv6=".data : List Char) ++ ipnetString n =
      "ipv6".data ++ '=' :: ipnetString n := by
    rw [show ("ipv6=".data : List Char) = "ipv6".data ++ ['='] from by decide]
    simp
  have hsplit : splitOnChar '=' ("ipv6=".data ++ ipnetString n) =
      ["ipv6".data, ipnetString n] := by
    rw [hshape, splitOnChar_append '=' _ _ (by decide), splitOnChar_notin '=' _ hnoeq]
  have hstep := kvNext_step_pair p _ rest "ipv6".data (ipnetString n) hl hsplit
    (by decide) (by decide)
  have hto4 : to4 n.ip = none := by
    simp only [canonical6, Bool.and_eq_true, Option.isNone_iff_eq_none] at hc
    exact hc.1.1.2
  have hkv : kvIPNet 6 { p with lines := rest, k := "ipv6".data, v := ipnetString n } =
      (some n, { p with lines := rest, k := "ipv6".data, v := ipnetString n }) := by
    simp only [kvIPNet]
    rw [if_neg (by simp [herr])]
    simp only [parseCIDR_canonical6 n hc]
    rw [if_neg (by decide)]
    rw [if_pos (by decide)]
    rw [if_neg (by simp [hto4])]
  rw [parseRequestIPLoopF, hstep]
  dsimp only
  rw [if_neg (by decide)]
  rw [if_pos (by decide)]
  rw [hkv]

/-- One loop iteration over a `leasestart=` line. -/
theorem loop_step_start (f : Nat) (p : KVParser) (sec : Int)
    (rest : List (List Char)) (rip : RequestIP)
    (hl : p.lines = ("leasestart=".data ++ itoa sec) :: rest)
    (herr : p.err = none) :
    parseRequestIPLoopF (f + 1) p rip =
      parseRequestIPLoopF f { p with lines := rest, k := "leasestart".data, v := itoa sec }
        { rip with leaseStart := timeUnix sec 0 } := by
  have hnoeq : '=' ∉ itoa sec := by
    intro hm
    exact absurd (itoa_subset sec '=' hm) (by decide)
  have hshape : ("leasestart=".data : List Char) ++ itoa sec =
      "leasestart".data ++ '=' :: itoa sec := by
    rw [show ("leasestart=".data : List Char) = "leasestart".data ++ ['='] from by decide]
    simp
  have hsplit : splitOnChar '=' ("leasestart=".data ++ itoa sec) =
      ["leasestart".data, itoa sec] := by
    rw [hshape, splitOnChar_append '=' _ _ (by decide), splitOnChar_notin '=' _ hnoeq]
  have hstep := kvNext_step_pair p _ rest "leasestart".data (itoa sec) hl hsplit
    (by decide) (by decide)
  have hkv : kvInt { p with lines := rest, k := "leasestart".data, v := itoa sec } =
      (sec, { p with lines := rest, k := "leasestart".data, v := itoa sec }) := by
    simp only [kvInt]
    rw [if_neg (by simp [herr])]
    simp only [atoi_itoa]
  rw [parseRequestIPLoopF, hstep]
  dsimp only
  rw [if_neg (by decide)]
  rw [if_neg (by decide)]
  rw [if_pos (by decide)]
  rw [hkv]

/-- One loop iteration over a `leasetime=` line. -/
theorem loop_step_time (f : Nat) (p : KVParser) (sec : Int)
    (rest : List (List Char)) (rip : RequestIP)
    (hl : p.lines = ("leasetime=".data ++ itoa sec) :: rest)
    (herr : p.err = none) :
    parseRequestIPLoopF (f + 1) p rip =
      parseRequestIPLoopF f { p with lines := rest, k := "leasetime".data, v := itoa sec }
        { rip with leaseTime := sec * nsPerSec } := by
  have hnoeq : '=' ∉ itoa sec := by
    intro hm
    exact absurd (itoa_subset sec '=' hm) (by decide)
  have hshape : ("leasetime=".data : List Char) ++ itoa sec =
      "leasetime".data ++ '=' :: itoa sec := by
    rw [show ("leasetime=".data : List Char) = "leasetime".data ++ ['='] from by decide]
    simp
  have hsplit : splitOnChar '=' ("leasetime=".data ++ itoa sec) =
      ["leasetime".data, itoa sec] := by
    rw [hshape, splitOnChar_append '=' _ _ (by decide), splitOnChar_notin '=' _ hnoeq]
  have hstep := kvNext_step_pair p _ rest "leasetime".data (itoa sec) hl hsplit
    (by decide) (by decide)
  have hkv : kvInt { p with lines := rest, k := "leasetime".data, v := itoa sec } =
      (sec, { p with lines := rest, k := "leasetime".data, v := itoa sec }) := by
    simp only [kvInt]
    rw [if_neg (by simp [herr])]
    simp only [atoi_itoa]
  rw [parseRequestIPLoopF, hstep]
  dsimp only
  rw [if_neg (by decide)]
  rw [if_neg (by decide)]
  rw [if_neg (by decide)]
  rw [if_pos (by decide)]
  rw [hkv]

/-- Optional `ipv4=` segment of the loop. -/
theorem loop_seg_ipv4 (f : Nat) (p : KVParser) (o : Option IPNet)
    (rest : List (List Char)) (rip : RequestIP)
    (hc : o.elim True (fun n => canonical4 n = true))
    (hl : p.lines = o.elim [] (fun n => [("ipv4=".data ++ ipnetString n)]) ++ rest)
    (herr : p.err = none)
    (habs : o = none → rip.ipv4 = none)
    (hf : p.lines.length < f) :
    ∃ q : KVParser, parseRequestIPLoopF f p rip =
        parseRequestIPLoopF (rest.length + 1) q { rip with ipv4 := o } ∧
      q.lines = rest ∧ q.err = p.err ∧ q.tripped = p.tripped ∧
      q.werr = p.werr ∧ q.readErr = p.readErr := by
  rcases o with - | n
  · have hpl : p.lines = rest := by simpa using hl
    have hre : ({ rip with ipv4 := none } : RequestIP) = rip := by
      have ha := habs rfl
      rcases rip with ⟨a, b, c, d⟩
      simp only at ha
      rw [ha]
    refine ⟨p, ?_, hpl, rfl, rfl, rfl, rfl⟩
    rw [hre]
    exact parseRequestIPLoopF_fuel f (rest.length + 1) p rip hf (by rw [hpl]; omega)
  · have hlc : p.lines = ("ipv4=".data ++ ipnetString n) :: rest := by simpa using hl
    have hflen : p.lines.length = rest.length + 1 := by
      rw [hlc]
      simp
    refine ⟨{ p with lines := rest, k := "ipv4".data, v := ipnetString n }, ?_,
      rfl, rfl, rfl, rfl, rfl⟩
    calc parseRequestIPLoopF f p rip
        = parseRequestIPLoopF (rest.length + 1 + 1) p rip :=
          parseRequestIPLoopF_fuel f (rest.length + 1 + 1) p rip hf (by omega)
      _ = _ := loop_step_ipv4 (rest.length + 1) p n rest rip hlc herr hc

/-- Optional `ipv6=` segment of the loop. -/
theorem loop_seg_ipv6 (f : Nat) (p : KVParser) (o : Option IPNet)
    (rest : List (List Char)) (rip : RequestIP)
    (hc : o.elim True (fun n => canonical6 n = true))
    (hl : p.lines = o.elim [] (fun n => [("ipv6=".data ++ ipnetString n)]) ++ rest)
    (herr : p.err = none)
    (habs : o = none → rip.ipv6 = none)
    (hf : p.lines.length < f) :
    ∃ q : KVParser, parseRequestIPLoopF f p rip =
        parseRequestIPLoopF (rest.length + 1) q { rip with ipv6 := o } ∧
      q.lines = rest ∧ q.err = p.err ∧ q.tripped = p.tripped ∧
      q.werr = p.werr ∧ q.readErr = p.readErr := by
  rcases o with - | n
  · have hpl : p.lines = rest := by simpa using hl
    have hre : ({ rip with ipv6 := none } : RequestIP) = rip := by
      have ha := habs rfl
      rcases rip with ⟨a, b, c, d⟩
      simp only at ha
      rw [ha]
    refine ⟨p, ?_, hpl, rfl, rfl, rfl, rfl⟩
    rw [hre]
    exact parseRequestIPLoopF_fuel f (rest.length + 1) p rip hf (by rw [hpl]; omega)
  · have hlc : p.lines = ("ipv6=".data ++ ipnetString n) :: rest := by simpa using hl
    refine ⟨{ p with lines := rest, k := "ipv6".data, v := ipnetString n }, ?_,
      rfl, rfl, rfl, rfl, rfl⟩
    calc parseRequestIPLoopF f p rip
        = parseRequestIPLoopF (rest.length + 1 + 1) p rip :=
          parseRequestIPLoopF_fuel f (rest.length + 1 + 1) p rip hf (by rw [hlc]; simp)
      _ = _ := loop_step_ipv6 (rest.length + 1) p n rest rip hlc herr hc

/-- Optional `leasestart=` segment of the loop. -/
theorem loop_seg_start (f : Nat) (p : KVParser) (ls : GoTime)
    (rest : List (List Char)) (rip : RequestIP)
    (hl : p.lines = (if isZeroTime ls then []
      else [("leasestart=".data ++ itoa (unixOf ls))]) ++ rest)
    (herr : p.err = none)
    (hns : ls.nsec = 0)
    (hz : isZeroTime ls = true → rip.leaseStart = ls)
    (hf : p.lines.length < f) :
    ∃ q : KVParser, parseRequestIPLoopF f p rip =
        parseRequestIPLoopF (rest.length + 1) q { rip with leaseStart := ls } ∧
      q.lines = rest ∧ q.err = p.err ∧ q.tripped = p.tripped ∧
      q.werr = p.werr ∧ q.readErr = p.readErr := by
  by_cases hzt : isZeroTime ls = true
  · have hpl : p.lines = rest := by
      rw [hl, if_pos hzt]
      simp
    have hre : ({ rip with leaseStart := ls } : RequestIP) = rip := by
      have ha := hz hzt
      rcases rip with ⟨a, b, c, d⟩
      simp only at ha
      rw [ha]
    refine ⟨p, ?_, hpl, rfl, rfl, rfl, rfl⟩
    rw [hre]
    exact parseRequestIPLoopF_fuel f (rest.length + 1) p rip hf (by rw [hpl]; omega)
  · have hlc : p.lines = ("leasestart=".data ++ itoa (unixOf ls)) :: rest := by
      rw [hl, if_neg hzt]
      simp
    have hts : timeUnix (unixOf ls) 0 = ls := by
      rcases ls with ⟨s, n⟩
      simp only at hns
      rw [hns]
      rfl
    refine ⟨{ p with lines := rest, k := "leasestart".data, v := itoa (unixOf ls) }, ?_,
      rfl, rfl, rfl, rfl, rfl⟩
    calc parseRequestIPLoopF f p rip
        = parseRequestIPLoopF (rest.length + 1 + 1) p rip :=
          parseRequestIPLoopF_fuel f (rest.length + 1 + 1) p rip hf (by rw [hlc]; simp)
      _ = parseRequestIPLoopF (rest.length + 1)
            { p with lines := rest, k := "leasestart".data, v := itoa (unixOf ls) }
            { rip with leaseStart := timeUnix (unixOf ls) 0 } :=
          loop_step_start (rest.length + 1) p (unixOf ls) rest rip hlc herr
      _ = _ := by rw [hts]

/-- Optional `leasetime=` segment of the loop. -/
theorem loop_seg_time (f : Nat) (p : KVParser) (lt : Int)
    (rest : List (List Char)) (rip : RequestIP)
    (hl : p.lines = (if lt > 0 then [("leasetime=".data ++ itoa (durSeconds lt))]
      else []) ++ rest)
    (herr : p.err = none)
    (hmod : lt % nsPerSec = 0)
    (hz : ¬ lt > 0 → rip.leaseTime = lt)
    (hf : p.lines.length < f) :
    ∃ q : KVParser, parseRequestIPLoopF f p rip =
        parseRequestIPLoopF (rest.length + 1) q { rip with leaseTime := lt } ∧
      q.lines = rest ∧ q.err = p.err ∧ q.tripped = p.tripped ∧
      q.werr = p.werr ∧ q.readErr = p.readErr := by
  by_cases hpos : lt > 0
  · have hlc : p.lines = ("leasetime=".data ++ itoa (durSeconds lt)) :: rest := by
      rw [hl, if_pos hpos]
      simp
    have hts : durSeconds lt * nsPerSec = lt := by
      rw [durSeconds]
      exact Int.ediv_mul_cancel (Int.dvd_of_emod_eq_zero hmod)
    refine ⟨{ p with lines := rest, k := "leasetime".data, v := itoa (durSeconds lt) }, ?_,
      rfl, rfl, rfl, rfl, rfl⟩
    calc parseRequestIPLoopF f p rip
        = parseRequestIPLoopF (rest.length + 1 + 1) p rip :=
          parseRequestIPLoopF_fuel f (rest.length + 1 + 1) p rip hf (by rw [hlc]; simp)
      _ = parseRequestIPLoopF (rest.length + 1)
            { p with lines := rest, k := "leasetime".data, v := itoa (durSeconds lt) }
            { rip with leaseTime := durSeconds lt * nsPerSec } :=
          loop_step_time (rest.length + 1) p (durSeconds lt) rest rip hlc herr
      _ = _ := by rw [hts]
  · have hpl : p.lines = rest := by
      rw [hl, if_neg hpos]
      simp
    have hre : ({ rip with leaseTime := lt } : RequestIP) = rip := by
      have ha := hz hpos
      rcases rip with ⟨a, b, c, d⟩
      simp only at ha
      rw [ha]
    refine ⟨p, ?_, hpl, rfl, rfl, rfl, rfl⟩
    rw [hre]
    exact parseRequestIPLoopF_fuel f (rest.length + 1) p rip hf (by rw [hpl]; omega)

/-- `parseRequestIP` decodes the encoded field lines of a canonical
request back to the very same `RequestIP`. -/
theorem parseRequestIP_canonical (rip : RequestIP)
    (hc : canonicalRequestIP rip = true) (p : KVParser)
    (herr : p.err = none) (htr : p.tripped = false) (hwn : p.werr.number = 0)
    (hl : p.lines = rip.ipv4.elim [] (fun n => [("ipv4=".data ++ ipnetString n)]) ++
      (rip.ipv6.elim [] (fun n => [("ipv6=".data ++ ipnetString n)]) ++
      ((if isZeroTime rip.leaseStart then []
        else [("leasestart=".data ++ itoa (unixOf rip.leaseStart))]) ++
      ((if rip.leaseTime > 0 then [("leasetime=".data ++ itoa (durSeconds rip.leaseTime))]
        else []) ++ [[]])))) :
    parseRequestIP p = .ok rip := by
  simp only [canonicalRequestIP, Bool.and_eq_true, beq_iff_eq, Bool.or_eq_true,
    decide_eq_true_eq] at hc
  obtain ⟨⟨⟨hc4, hc6⟩, hns⟩, hlt⟩ := hc
  have hc4e : rip.ipv4.elim True (fun n => canonical4 n = true) := by
    rcases h : rip.ipv4 with - | n
    · trivial
    · rw [h] at hc4
      exact hc4
  have hc6e : rip.ipv6.elim True (fun n => canonical6 n = true) := by
    rcases h : rip.ipv6 with - | n
    · trivial
    · rw [h] at hc6
      exact hc6
  have hmod : rip.leaseTime % nsPerSec = 0 := by
    rcases hlt with h | ⟨-, h⟩
    · rw [h]
      rfl
    · exact h
  have hlt0 : ¬ rip.leaseTime > 0 → rip.leaseTime = 0 := by
    rcases hlt with h | ⟨h, -⟩
    · exact fun _ => h
    · exact fun hn => absurd h hn
  obtain ⟨q1, he1, hq1l, hq1e, hq1t, hq1w, hq1r⟩ :=
    loop_seg_ipv4 (p.lines.length + 1) p rip.ipv4
      (rip.ipv6.elim [] (fun n => [("ipv6=".data ++ ipnetString n)]) ++
      ((if isZeroTime rip.leaseStart then []
        else [("leasestart=".data ++ itoa (unixOf rip.leaseStart))]) ++
      ((if rip.leaseTime > 0 then [("leasetime=".data ++ itoa (durSeconds rip.leaseTime))]
        else []) ++ [[]])))
      emptyRequestIP hc4e hl herr (fun _ => rfl) (Nat.lt_succ_self _)
  obtain ⟨q2, he2, hq2l, hq2e, hq2t, hq2w, hq2r⟩ :=
    loop_seg_ipv6
      ((rip.ipv6.elim [] (fun n => [("ipv6=".data ++ ipnetString n)]) ++
      ((if isZeroTime rip.leaseStart then []
        else [("leasestart=".data ++ itoa (unixOf rip.leaseStart))]) ++
      ((if rip.leaseTime > 0 then [("leasetime=".data ++ itoa (durSeconds rip.leaseTime))]
        else []) ++ [[]]))).length + 1)
      q1 rip.ipv6
      ((if isZeroTime rip.leaseStart then []
        else [("leasestart=".data ++ itoa (unixOf rip.leaseStart))]) ++
      ((if rip.leaseTime > 0 then [("leasetime=".data ++ itoa (durSeconds rip.leaseTime))]
        else []) ++ [[]]))
      { emptyRequestIP with ipv4 := rip.ipv4 } hc6e hq1l
      (by rw [hq1e, herr]) (fun _ => rfl)
      (by rw [hq1l]; exact Nat.lt_succ_self _)
  obtain ⟨q3, he3, hq3l, hq3e, hq3t, hq3w, hq3r⟩ :=
    loop_seg_start
      (((if isZeroTime rip.leaseStart then []
        else [("leasestart=".data ++ itoa (unixOf rip.leaseStart))]) ++
      ((if rip.leaseTime > 0 then [("leasetime=".data ++ itoa (durSeconds rip.leaseTime))]
        else []) ++ [[]])).length + 1)
      q2 rip.leaseStart
      ((if rip.leaseTime > 0 then [("leasetime=".data ++ itoa (durSeconds rip.leaseTime))]
        else []) ++ [[]])
      ⟨rip.ipv4, rip.ipv6, zeroTime, 0⟩ hq2l
      (by rw [hq2e, hq1e, herr]) hns
      (fun h => by
        have hztw : rip.leaseStart = zeroTime :=
          of_decide_eq_true (by simpa [isZeroTime] using h)
        rw [hztw])
      (by rw [hq2l]; exact Nat.lt_succ_self _)
  obtain ⟨q4, he4, hq4l, hq4e, hq4t, hq4w, hq4r⟩ :=
    loop_seg_time
      (((if rip.leaseTime > 0 then [("leasetime=".data ++ itoa (durSeconds rip.leaseTime))]
        else []) ++ [[]]).length + 1)
      q3 rip.leaseTime [[]]
      ⟨rip.ipv4, rip.ipv6, rip.leaseStart, 0⟩ hq3l
      (by rw [hq3e, hq2e, hq1e, herr]) hmod
      (fun h => by rw [hlt0 h])
      (by rw [hq3l]; exact Nat.lt_succ_self _)
  have hstop := loop_step_stop 1 q4 []
    (⟨rip.ipv4, rip.ipv6, rip.leaseStart, rip.leaseTime⟩ : RequestIP) hq4l
  have hloop : parseRequestIPLoop p emptyRequestIP =
      ({ q4 with lines := [] },
       (⟨rip.ipv4, rip.ipv6, rip.leaseStart, rip.leaseTime⟩ : RequestIP)) := by
    rw [parseRequestIPLoop]
    exact he1.trans (he2.trans (he3.trans (he4.trans hstop)))
  have hrip : ((⟨rip.ipv4, rip.ipv6, rip.leaseStart, rip.leaseTime⟩ : RequestIP)) = rip := by
    rcases rip with ⟨a, b, c, d⟩
    rfl
  have hkq : kvErr { q4 with lines := [] } = none := by
    have ht4 : q4.tripped = false := by
      rw [hq4t, hq3t, hq2t, hq1t, htr]
    have he4e : q4.err = none := by
      rw [hq4e, hq3e, hq2e, hq1e, herr]
    have hw4 : q4.werr.number = 0 := by
      rw [show ({ q4 with lines := ([] : List (List Char)) } : KVParser).werr = q4.werr
        from rfl, hq4w, hq3w, hq2w, hq1w]
      exact hwn
    rw [kvErr]
    rw [show scannerErr { q4 with lines := ([] : List (List Char)) } = none from by
      rw [scannerErr]
      simp [ht4]]
    simp only [he4e]
    simp [hw4]
  rw [parseRequestIP, hloop]
  dsimp only
  rw [hkq, hrip]

/-- The encoded request is its header, the present field lines, and the
blank terminator, newline-joined. -/
theorem sendRequestIP_lines (rip : RequestIP) :
    sendRequestIP (some rip) =
      encodeLines (["request_ip=1".data] ++
        (rip.ipv4.elim [] (fun n => [("ipv4=".data ++ ipnetString n)]) ++
        (rip.ipv6.elim [] (fun n => [("ipv6=".data ++ ipnetString n)]) ++
        ((if isZeroTime rip.leaseStart then []
          else [("leasestart=".data ++ itoa (unixOf rip.leaseStart))]) ++
        ((if rip.leaseTime > 0 then [("leasetime=".data ++ itoa (durSeconds rip.leaseTime))]
          else []) ++ [[]]))))) := by
  have hcmd : ("request_ip=1\n".data : List Char) = "request_ip=1".data ++ ['\n'] := by
    decide
  rcases rip with ⟨i4, i6, ls, lt⟩
  rcases i4 with - | n4 <;> rcases i6 with - | n6 <;>
    by_cases hls : isZeroTime ls <;> by_cases hlt : lt > 0 <;>
    simp [sendRequestIP, hls, hlt, hcmd, encodeLines_append, encodeLines_cons,
      encodeLines_nil, List.append_assoc]

/-- Lines over a newline- and CR-free alphabet are well formed. -/
theorem lineWF_of_subset (l S : List Char) (hsub : ∀ c ∈ l, c ∈ S)
    (hn : '\n' ∉ S) (hr : '\r' ∉ S) :
    '\n' ∉ l ∧ l.getLast? ≠ some '\r' :=
  ⟨fun hm => hn (hsub _ hm),
   fun hg => hr (hsub _ (mem_of_getLast l _ hg))⟩

/-- Every line of an encoded canonical request is newline-free and does
not end in a carriage return. -/
theorem requestLines_wf (rip : RequestIP) (hc : canonicalRequestIP rip = true) :
    ∀ l ∈ (["request_ip=1".data] ++
      (rip.ipv4.elim [] (fun n => [("ipv4=".data ++ ipnetString n)]) ++
      (rip.ipv6.elim [] (fun n => [("ipv6=".data ++ ipnetString n)]) ++
      ((if isZeroTime rip.leaseStart then []
        else [("leasestart=".data ++ itoa (unixOf rip.leaseStart))]) ++
      ((if rip.leaseTime > 0 then [("leasetime=".data ++ itoa (durSeconds rip.leaseTime))]
        else []) ++ [[]]))))),
      '\n' ∉ l ∧ l.getLast? ≠ some '\r' := by
  simp only [canonicalRequestIP, Bool.and_eq_true] at hc
  obtain ⟨⟨⟨hc4, hc6⟩, -⟩, -⟩ := hc
  intro l hl
  rcases List.mem_append.1 hl with h | h
  · simp only [List.mem_singleton] at h
    subst h
    exact ⟨by decide, by decide⟩
  rcases List.mem_append.1 h with h | h
  · rcases h4 : rip.ipv4 with - | n4
    · rw [h4] at h
      simp at h
    · rw [h4] at h hc4
      simp only [Option.elim_some, List.mem_singleton] at h
      subst h
      refine lineWF_of_subset _ "=ipv4./0123456789".data ?_ (by decide) (by decide)
      intro c hcin
      rcases List.mem_append.1 hcin with hcc | hcc
      · have hall : ∀ c ∈ ("ipv4=".data : List Char), c ∈ "=ipv4./0123456789".data := by
          decide
        exact hall c hcc
      · have hall : ∀ c ∈ ("./0123456789".data : List Char),
            c ∈ "=ipv4./0123456789".data := by
          decide
        exact hall c (ipnetString4_subset n4 hc4 c hcc)
  rcases List.mem_append.1 h with h | h
  · rcases h6 : rip.ipv6 with - | n6
    · rw [h6] at h
      simp at h
    · rw [h6] at h hc6
      simp only [Option.elim_some, List.mem_singleton] at h
      subst h
      refine lineWF_of_subset _ "=ipv6:/0123456789abcdef".data ?_ (by decide) (by decide)
      intro c hcin
      rcases List.mem_append.1 hcin with hcc | hcc
      · have hall : ∀ c ∈ ("ipv6=".data : List Char),
            c ∈ "=ipv6:/0123456789abcdef".data := by
          decide
        exact hall c hcc
      · have hall : ∀ c ∈ (":/0123456789abcdef".data : List Char),
            c ∈ "=ipv6:/0123456789abcdef".data := by
          decide
        exact hall c (ipnetString6_subset n6 hc6 c hcc)
  rcases List.mem_append.1 h with h | h
  · by_cases hz : isZeroTime rip.leaseStart
    · rw [if_pos hz] at h
      simp at h
    · rw [if_neg hz] at h
      simp only [List.mem_singleton] at h
      subst h
      refine lineWF_of_subset _ "=leasetimr-0123456789".data ?_ (by decide) (by decide)
      intro c hcin
      rcases List.mem_append.1 hcin with hcc | hcc
      · have hall : ∀ c ∈ ("leasestart=".data : List Char),
            c ∈ "=leasetimr-0123456789".data := by
          decide
        exact hall c hcc
      · have hall : ∀ c ∈ ("-0123456789".data : List Char),
            c ∈ "=leasetimr-0123456789".data := by
          decide
        exact hall c (itoa_subset _ c hcc)
  rcases List.mem_append.1 h with h | h
  · by_cases hp : rip.leaseTime > 0
    · rw [if_pos hp] at h
      simp only [List.mem_singleton] at h
      subst h
      refine lineWF_of_subset _ "=leasetimr-0123456789".data ?_ (by decide) (by decide)
      intro c hcin
      rcases List.mem_append.1 hcin with hcc | hcc
      · have hall : ∀ c ∈ ("leasetime=".data : List Char),
            c ∈ "=leasetimr-0123456789".data := by
          decide
        exact hall c hcc
      · have hall : ∀ c ∈ ("-0123456789".data : List Char),
            c ∈ "=leasetimr-0123456789".data := by
          decide
        exact hall c (itoa_subset _ c hcc)
    · rw [if_neg hp] at h
      simp at h
  · simp only [List.mem_singleton] at h
    subst h
    exact ⟨by decide, by decide⟩

/-! ## Claim theorems -/

/-- C3: for every parser state at end of iteration, `kvParser.Err`
returns errors in strict priority: any underlying stream read fault
first; otherwise any local decode fault (malformed pair, bad integer,
bad CIDR, family mismatch — the `ParseFault` type); otherwise the
accumulated protocol error when its number is non-zero; otherwise no
error. -/
theorem claim_C3_err_priority (p : KVParser) (e : Nat) (pe : ParseFault) :
    (scannerErr p = some e → kvErr p = some (.scanErr e)) ∧
    (scannerErr p = none → p.err = some pe → kvErr p = some (.parseErr pe)) ∧
    (scannerErr p = none → p.err = none → p.werr.number ≠ 0 →
      kvErr p = some (.protocolErr p.werr.number p.werr.message)) ∧
    (scannerErr p = none → p.err = none → p.werr.number = 0 → kvErr p = none) := by
  refine ⟨fun h1 => ?_, fun h1 h2 => ?_, fun h1 h2 h3 => ?_, fun h1 h2 h3 => ?_⟩
  · simp only [kvErr, h1]
  · simp only [kvErr, h1, h2]
  · simp only [kvErr, h1, h2, if_pos h3]
  · simp only [kvErr, h1, h2, h3]
    simp

/-- Witness for C3 at concrete parser states, one per priority level;
the first state carries a read fault, a decode fault and a non-zero
protocol error at once, and the read fault wins. -/
theorem claim_C3_witness :
    kvErr ⟨[], some 7, true, some (.badAtoi []), ⟨5, []⟩, [], []⟩ = some (.scanErr 7) ∧
    kvErr ⟨[], none, true, some (.badAtoi []), ⟨5, []⟩, [], []⟩ = some (.parseErr (.badAtoi [])) ∧
    kvErr ⟨[], none, true, none, ⟨5, ['x']⟩, [], []⟩ = some (.protocolErr 5 ['x']) ∧
    kvErr ⟨[], none, true, none, ⟨0, []⟩, [], []⟩ = none :=
  ⟨(claim_C3_err_priority _ 7 (.badAtoi [])).1 (by decide),
   (claim_C3_err_priority _ 7 (.badAtoi [])).2.1 (by decide) rfl,
   (claim_C3_err_priority _ 7 (.badAtoi [])).2.2.1 (by decide) rfl (by decide),
   (claim_C3_err_priority _ 7 (.badAtoi [])).2.2.2 (by decide) rfl (by decide)⟩

/-- C4: whenever the first decoded pair of a response stream exists but
its key is not `request_ip`, `Client.RequestIP` fails with the
malformed-response (command mismatch) error — never with a decode error
and never with a protocol error. -/
theorem claim_C4_command_mismatch (lines : List (List Char)) (re : Option Nat)
    (h1 : (kvNext (newKVParser lines re)).1 = true)
    (h2 : (kvNext (newKVParser lines re)).2.k ≠ "request_ip".data) :
    clientHandleResponse lines re = Except.error .malformedResponse ∧
    (∀ pe : ParseFault, clientHandleResponse lines re ≠ Except.error (.parseErr pe)) ∧
    (∀ n m, clientHandleResponse lines re ≠ Except.error (.protocolErr n m)) := by
  have hmain : clientHandleResponse lines re = Except.error .malformedResponse := by
    unfold clientHandleResponse parseStart
    rcases hk : kvNext (newKVParser lines re) with ⟨b, p1⟩
    rw [hk] at h1 h2
    simp only at h1 h2
    cases b
    · exact Bool.noConfusion h1
    · simp only [hk, if_pos h2]
  exact ⟨hmain, fun pe => by rw [hmain]; simp, fun n m => by rw [hmain]; simp⟩

/-- Witness for C4: a well-formed response stream whose first key is
`foo`. -/
theorem claim_C4_witness :
    clientHandleResponse (splitLines ("foo=1\n\n".data)) none =
      Except.error .malformedResponse :=
  (claim_C4_command_mismatch (splitLines ("foo=1\n\n".data)) none
    (by decide) (by decide)).1

/-- C7: the code's actual behaviour at the claim's failing input.  A
request whose `LeaseStart` is `time.Unix(1, 0)` is not rejected by
`Client.RequestIP` (src/unnamed/part_001 lines 77-110 contains no such
check); instead `sendRequestIP` serialises the field, so the exchange
dials and writes `request_ip=1\nleasestart=1\n\n`.  This contradicts the
`RequestIP` field documentation (src/command.go lines 24-27: "an error
will be returned if it is used in a client request") and the intent of
`TestClientRequestIPBadRequest`. -/
theorem claim_C7_leasestart_sent :
    clientExchange (some { emptyRequestIP with leaseStart := timeUnix 1 0 })
        (splitLines ("request_ip=1\nerrno=0\n\n".data)) none =
      ("request_ip=1\nleasestart=1\n\n".data, Except.ok emptyRequestIP) := by
  decide

/-- C8 counterexample: decode faults are not sticky for `Next`.  After
the malformed line `bad` records a fault, a further `Next` call
continues to the following well-formed line and returns `true`, so
"iteration via Next stops" fails on the code. -/
theorem claim_C8_counterexample :
    ((kvNext (kvNext (newKVParser
        ["hello=world".data, "bad".data, "ok=1".data, []] none)).2).2.err
      = some (.malformedPair "bad".data)) ∧
    (kvNext ((kvNext (kvNext (newKVParser
        ["hello=world".data, "bad".data, "ok=1".data, []] none)).2).2)).1 = true := by
  decide

/-- C8 (amended): once a decode fault is recorded, every typed read
(`Int`, `String`, `IPNet`) returns the zero value and leaves the parser
state — hence also `Err` — completely unchanged; `Next`, however, is not
gated on the recorded fault: it will continue past it to a following
well-formed ordinary pair and return `true`. -/
theorem claim_C8_amended (p : KVParser) (e : ParseFault) (h : p.err = some e) :
    kvInt p = (0, p) ∧
    kvString p = [] ∧
    kvIPNet 4 p = (none, p) ∧
    kvIPNet 6 p = (none, p) ∧
    kvErr (kvInt p).2 = kvErr p ∧
    (∀ line rest k v, p.lines = line :: rest → line ≠ [] →
      splitOnChar '=' line = [k, v] → k ≠ "errno".data → k ≠ "errmsg".data →
      (kvNext p).1 = true) := by
  have hsome : p.err.isSome = true := by rw [h]; rfl
  have hint : kvInt p = (0, p) := by simp only [kvInt, hsome]; rfl
  refine ⟨hint, ?_, ?_, ?_, ?_, ?_⟩
  · simp only [kvString, hsome]; rfl
  · simp only [kvIPNet, hsome]; rfl
  · simp only [kvIPNet, hsome]; rfl
  · rw [hint]
  · intro line rest k v hl hline hs hk hk2
    unfold kvNext
    rw [hl]
    simp only [List.length_cons]
    simp only [kvNextF, hl, if_neg hline, hs, if_neg hk, if_neg hk2]

/-- C6: a value read through `kvParser.IPNet` that does not parse as a
CIDR records a decode fault; one that parses but whose network is not
representable as IPv4 when family 4 was requested (or is representable
as IPv4 when family 6 was requested) records a family-mismatch fault
instead of being coerced; both faults surface through `Err`. -/
theorem claim_C6_ipnet_validation (p : KVParser) (herr : p.err = none) :
    (parseCIDR p.v = none →
      kvIPNet 4 p = (none, { p with err := some (.badCIDR p.v) }) ∧
      kvIPNet 6 p = (none, { p with err := some (.badCIDR p.v) }) ∧
      (p.tripped = false →
        kvErr (kvIPNet 4 p).2 = some (.parseErr (.badCIDR p.v)))) ∧
    (∀ ip ipn, parseCIDR p.v = some (ip, ipn) → to4 ipn.ip = none →
      kvIPNet 4 p = (none, { p with err := some (.badFamily4 p.v) }) ∧
      (p.tripped = false →
        kvErr (kvIPNet 4 p).2 = some (.parseErr (.badFamily4 p.v)))) ∧
    (∀ ip ipn, parseCIDR p.v = some (ip, ipn) → (to4 ipn.ip).isSome →
      kvIPNet 6 p = (none, { p with err := some (.badFamily6 p.v) }) ∧
      (p.tripped = false →
        kvErr (kvIPNet 6 p).2 = some (.parseErr (.badFamily6 p.v)))) := by
  have hsome : p.err.isSome = false := by rw [herr]; rfl
  refine ⟨fun hc => ?_, fun ip ipn hc h4 => ?_, fun ip ipn hc h6 => ?_⟩
  · have e4 : kvIPNet 4 p = (none, { p with err := some (.badCIDR p.v) }) := by
      simp only [kvIPNet, hsome, hc]; rfl
    have e6 : kvIPNet 6 p = (none, { p with err := some (.badCIDR p.v) }) := by
      simp only [kvIPNet, hsome, hc]; rfl
    refine ⟨e4, e6, fun ht => ?_⟩
    rw [e4]
    simp only [kvErr, scannerErr, ht]
    rfl
  · have e4 : kvIPNet 4 p = (none, { p with err := some (.badFamily4 p.v) }) := by
      simp only [kvIPNet, hsome, hc, h4]
      rfl
    refine ⟨e4, fun ht => ?_⟩
    rw [e4]
    simp only [kvErr, scannerErr, ht]
    rfl
  · have h6n : to4 ipn.ip ≠ none := by
      intro hx; rw [hx] at h6; exact Bool.noConfusion h6
    have e6 : kvIPNet 6 p = (none, { p with err := some (.badFamily6 p.v) }) := by
      simp only [kvIPNet, hsome, hc, if_neg h6n]
      simp only [h6]
      rfl
    refine ⟨e6, fun ht => ?_⟩
    rw [e6]
    simp only [kvErr, scannerErr, ht]
    rfl

/-- Witness for C6: an unparseable value, an IPv6 value in the IPv4
slot, and an IPv4 value in the IPv6 slot. -/
theorem claim_C6_witness :
    kvIPNet 4 ⟨[], none, false, none, ⟨0, []⟩, [], "foo".data⟩ =
      (none, ⟨[], none, false, some (.badCIDR "foo".data), ⟨0, []⟩, [], "foo".data⟩) ∧
    kvIPNet 4 ⟨[], none, false, none, ⟨0, []⟩, [], "2001:db8::1/128".data⟩ =
      (none, ⟨[], none, false, some (.badFamily4 "2001:db8::1/128".data), ⟨0, []⟩, [],
        "2001:db8::1/128".data⟩) ∧
    kvIPNet 6 ⟨[], none, false, none, ⟨0, []⟩, [], "192.0.2.1/32".data⟩ =
      (none, ⟨[], none, false, some (.badFamily6 "192.0.2.1/32".data), ⟨0, []⟩, [],
        "192.0.2.1/32".data⟩) :=
  ⟨((claim_C6_ipnet_validation ⟨[], none, false, none, ⟨0, []⟩, [], "foo".data⟩ rfl).1
      (by decide)).1,
   ((claim_C6_ipnet_validation ⟨[], none, false, none, ⟨0, []⟩, [],
        "2001:db8::1/128".data⟩ rfl).2.1
      ([0x20, 0x01, 0x0d, 0xb8, 0, 0, 0, 0, 0, 0, 0, 0, 0, 0, 0, 1] : List Nat)
      ⟨[0x20, 0x01, 0x0d, 0xb8, 0, 0, 0, 0, 0, 0, 0, 0, 0, 0, 0, 1], cidrMask 128 128⟩
      (by decide) (by decide)).1,
   ((claim_C6_ipnet_validation ⟨[], none, false, none, ⟨0, []⟩, [],
        "192.0.2.1/32".data⟩ rfl).2.2
      (v4in6 ++ [192, 0, 2, 1]) ⟨[192, 0, 2, 1], cidrMask 32 32⟩
      (by decide) (by decide)).1⟩

/-- C9: the CIDR accessor returns `net.ParseCIDR`'s network value — the
parsed address masked by the prefix, i.e. with host bits cleared — not
the exact address on the wire.  Concretely, a response line
`ipv6=2001:db8::ffff/64` decodes to the network `2001:db8::/64`, not to
`2001:db8::ffff/64`. -/
theorem claim_C9_network_value (p : KVParser) (f : Nat) (ip : List Nat) (ipn : IPNet)
    (herr : p.err = none) (hp : parseCIDR p.v = some (ip, ipn)) :
    ipn.ip = maskIP ip ipn.mask ∧
    (f = 4 → to4 ipn.ip ≠ none → kvIPNet f p = (some ipn, p)) ∧
    (f = 6 → to4 ipn.ip = none → kvIPNet f p = (some ipn, p)) ∧
    (clientHandleResponse (splitLines ("request_ip=1\nipv6=2001:db8::ffff/64\n\n".data)) none
      = Except.ok { emptyRequestIP with
          ipv6 := some ⟨[0x20, 0x01, 0x0d, 0xb8] ++ List.replicate 12 0, cidrMask 64 128⟩ }) ∧
    (clientHandleResponse (splitLines ("request_ip=1\nipv6=2001:db8::ffff/64\n\n".data)) none
      ≠ Except.ok { emptyRequestIP with
          ipv6 := some ⟨[0x20, 0x01, 0x0d, 0xb8] ++ List.replicate 10 0 ++ [0xff, 0xff],
                        cidrMask 64 128⟩ }) := by
  have hsome : p.err.isSome = false := by rw [herr]; rfl
  refine ⟨parseCIDR_network p.v ip ipn hp, fun hf h4 => ?_, fun hf h6 => ?_,
    by decide, by decide⟩
  · subst hf
    simp only [kvIPNet, hsome, hp, if_neg h4]
    rfl
  · subst hf
    simp only [kvIPNet, hsome, hp, h6]
    rfl

/-- Witness for C9: the IPv6 slot reading `2001:db8::ffff/64` yields the
masked network. -/
theorem claim_C9_witness :
    kvIPNet 6 ⟨[], none, false, none, ⟨0, []⟩, [], "2001:db8::ffff/64".data⟩ =
      (some ⟨[0x20, 0x01, 0x0d, 0xb8] ++ List.replicate 12 0, cidrMask 64 128⟩,
       ⟨[], none, false, none, ⟨0, []⟩, [], "2001:db8::ffff/64".data⟩) :=
  ((claim_C9_network_value ⟨[], none, false, none, ⟨0, []⟩, [], "2001:db8::ffff/64".data⟩ 6
      ([0x20, 0x01, 0x0d, 0xb8] ++ List.replicate 10 0 ++ [0xff, 0xff])
      ⟨[0x20, 0x01, 0x0d, 0xb8] ++ List.replicate 12 0, cidrMask 64 128⟩
      rfl (by decide)).2.2.1 rfl (by decide))


/-- Witness for C8 (amended): a parser with a recorded bad-integer fault
whose next token is the well-formed pair `ok=1`. -/
theorem claim_C8_witness :
    kvInt ⟨["ok=1".data, []], none, false, some (.badAtoi ['z']), ⟨0, []⟩,
        "hello".data, ['z']⟩ =
      (0, ⟨["ok=1".data, []], none, false, some (.badAtoi ['z']), ⟨0, []⟩,
        "hello".data, ['z']⟩) ∧
    (kvNext ⟨["ok=1".data, []], none, false, some (.badAtoi ['z']), ⟨0, []⟩,
        "hello".data, ['z']⟩).1 = true :=
  ⟨(claim_C8_amended _ (.badAtoi ['z']) rfl).1,
   (claim_C8_amended _ (.badAtoi ['z']) rfl).2.2.2.2.2 "ok=1".data [[]]
     "ok".data ['1'] rfl (by decide) (by decide) (by decide) (by decide)⟩

/-- C5: `sendRequestIP` emits exactly one `key=value` line per present
field, in the fixed order command marker, ipv4, ipv6, leasestart,
leasetime, each line newline-terminated, followed by the blank
terminator line; absent fields produce no line, and a request with no
optional fields (or a nil request) is exactly `request_ip=1\n\n`. -/
theorem claim_C5_encoding :
    sendRequestIP none = "request_ip=1\n\n".data ∧
    (∀ rip : RequestIP, sendRequestIP (some rip) =
      encodeLines (["request_ip=1".data]
        ++ (match rip.ipv4 with
            | some n => ["ipv4=".data ++ ipnetString n]
            | none => [])
        ++ (match rip.ipv6 with
            | some n => ["ipv6=".data ++ ipnetString n]
            | none => [])
        ++ (if isZeroTime rip.leaseStart then []
            else ["leasestart=".data ++ itoa (unixOf rip.leaseStart)])
        ++ (if rip.leaseTime > 0 then
              ["leasetime=".data ++ itoa (durSeconds rip.leaseTime)]
            else [])
        ++ [[]])) ∧
    (∀ rip : RequestIP, rip.ipv4 = none → rip.ipv6 = none →
      isZeroTime rip.leaseStart = true → ¬ rip.leaseTime > 0 →
      sendRequestIP (some rip) = "request_ip=1\n\n".data) := by
  have hcmd : ("request_ip=1\n".data : List Char) = "request_ip=1".data ++ ['\n'] := by
    decide
  refine ⟨rfl, fun rip => ?_, fun rip h1 h2 h3 h4 => ?_⟩
  · rcases rip with ⟨i4, i6, ls, lt⟩
    rcases i4 with - | n4 <;> rcases i6 with - | n6 <;>
      by_cases hls : isZeroTime ls <;> by_cases hlt : lt > 0 <;>
      simp [sendRequestIP, hls, hlt, hcmd, encodeLines_append, encodeLines_cons,
        encodeLines_nil, List.append_assoc]
  · rcases rip with ⟨i4, i6, ls, lt⟩
    simp only at h1 h2 h3 h4
    subst h1
    subst h2
    simp [sendRequestIP, h3, h4]

/-- Witness for C5's universally quantified parts at a concrete request
with ipv4 and leasetime present (ipv6 and leasestart absent), and at the
all-absent request. -/
theorem claim_C5_witness :
    sendRequestIP (some ⟨some ⟨[192, 0, 2, 1], [255, 255, 255, 255]⟩, none, zeroTime,
        10000000000⟩) =
      encodeLines (["request_ip=1".data]
        ++ ["ipv4=".data ++ ipnetString ⟨[192, 0, 2, 1], [255, 255, 255, 255]⟩]
        ++ [] ++ [] ++ ["leasetime=".data ++ itoa 10] ++ [[]]) ∧
    sendRequestIP (some ⟨none, none, zeroTime, 0⟩) = "request_ip=1\n\n".data := by
  constructor
  · have h := (claim_C5_encoding).2.1
      ⟨some ⟨[192, 0, 2, 1], [255, 255, 255, 255]⟩, none, zeroTime, 10000000000⟩
    rw [h]
    decide
  · exact (claim_C5_encoding).2.2 ⟨none, none, zeroTime, 0⟩ rfl rfl (by decide) (by decide)


/-- C2 counterexample: the claim's "iff" fails as stated.  The stream
`request_ip=1, errno=1, errno=0` contains an `errno` pair with non-zero
integer value, yet `Err` at end of iteration returns no error at all,
because the later `errno=0` overwrote the pending error number. -/
theorem claim_C2_counterexample :
    hasNonzeroErrno ["request_ip=1".data, "errno=1".data, "errno=0".data] = true ∧
    kvErr (runKV (newKVParser
      ["request_ip=1".data, "errno=1".data, "errno=0".data, []] none)) = none := by
  decide

/-- C2 (amended): over any well-formed message body (every line one
`key=value` pair, `errno` values integers) followed by the blank
terminator, `Err` returns a ProtocolError iff the value of the *last*
`errno` pair is non-zero; the error then carries that number together
with the value of the last `errmsg` pair, or the empty string if no
`errmsg` pair was present; in particular a stream whose last `errno`
is `0` — and any stream with no `errno` pair — yields no
ProtocolError. -/
theorem claim_C2_amended (body rest : List (List Char)) (re : Option Nat)
    (hwf : wfBody body = true) :
    (isProtocolError (kvErr (runKV (newKVParser (body ++ [[]] ++ rest) re))) = true
        ↔ lastErrnoAux 0 body ≠ 0) ∧
    (lastErrnoAux 0 body ≠ 0 →
      kvErr (runKV (newKVParser (body ++ [[]] ++ rest) re)) =
        some (.protocolErr (lastErrnoAux 0 body) (lastErrmsgAux [] body))) ∧
    (lastErrnoAux 0 body = 0 →
      kvErr (runKV (newKVParser (body ++ [[]] ++ rest) re)) = none) := by
  obtain ⟨he, ht, hr, hn, hm⟩ :=
    runKV_wf body (newKVParser (body ++ [[]] ++ rest) re) rest rfl rfl rfl hwf
  have hnum : (runKV (newKVParser (body ++ [[]] ++ rest) re)).werr.number =
      lastErrnoAux 0 body := by simpa [newKVParser] using hn
  have hmsg : (runKV (newKVParser (body ++ [[]] ++ rest) re)).werr.message =
      lastErrmsgAux [] body := by simpa [newKVParser] using hm
  have hscan : scannerErr (runKV (newKVParser (body ++ [[]] ++ rest) re)) = none := by
    unfold scannerErr
    rw [ht]
    simp
  have hkv : kvErr (runKV (newKVParser (body ++ [[]] ++ rest) re)) =
      (if lastErrnoAux 0 body ≠ 0 then
        some (.protocolErr (lastErrnoAux 0 body) (lastErrmsgAux [] body))
      else none) := by
    simp only [kvErr, hscan, he, hnum, hmsg]
  refine ⟨?_, fun h => ?_, fun h => ?_⟩
  · rw [hkv]
    by_cases h : lastErrnoAux 0 body ≠ 0 <;> simp [h, isProtocolError]
  · rw [hkv, if_pos h]
  · rw [hkv, if_neg (by simp [h])]

/-- Witness for C2 (amended): a body with `errno=2` and
`errmsg=Out of IPs` yields that protocol error, and a body closing with
`errno=0` yields none. -/
theorem claim_C2_witness :
    kvErr (runKV (newKVParser
      ["request_ip=1".data, "errno=2".data, "errmsg=Out of IPs".data, []] none)) =
      some (.protocolErr 2 "Out of IPs".data) ∧
    kvErr (runKV (newKVParser
      ["request_ip=1".data, "errno=0".data, []] none)) = none :=
  ⟨by
    have h := (claim_C2_amended
      ["request_ip=1".data, "errno=2".data, "errmsg=Out of IPs".data] [] none
      (by decide)).2.1 (by decide)
    simpa using h,
   by
    have h := (claim_C2_amended ["request_ip=1".data, "errno=0".data] [] none
      (by decide)).2.2 (by decide)
    simpa using h⟩

/-- C1 counterexample: round-tripping is not exact for every value; a
lease start with non-zero nanoseconds comes back truncated to whole
seconds, so the decoded request differs from the original. -/
theorem claim_C1_counterexample :
    roundtripRequestIP ⟨none, none, timeUnix 1 5, 0⟩ =
      some ⟨none, none, timeUnix 1 0, 0⟩ ∧
    (⟨none, none, timeUnix 1 0, 0⟩ : RequestIP) ≠ ⟨none, none, timeUnix 1 5, 0⟩ := by
  decide

/-- C1 (amended): encoding with `sendRequestIP` and decoding with
`parse`/`parseRequestIP` returns the original `RequestIP` field for
field, for every canonically-representable request — any subset of the
optional fields present, networks as `ParseCIDR` produces them, a
whole-second lease start, and an absent or positive whole-second lease
time. -/
theorem claim_C1_amended (rip : RequestIP) (hc : canonicalRequestIP rip = true) :
    roundtripRequestIP rip = some rip := by
  have hsplit : splitLines (sendRequestIP (some rip)) =
      "request_ip=1".data ::
      (rip.ipv4.elim [] (fun n => [("ipv4=".data ++ ipnetString n)]) ++
      (rip.ipv6.elim [] (fun n => [("ipv6=".data ++ ipnetString n)]) ++
      ((if isZeroTime rip.leaseStart then []
        else [("leasestart=".data ++ itoa (unixOf rip.leaseStart))]) ++
      ((if rip.leaseTime > 0 then [("leasetime=".data ++ itoa (durSeconds rip.leaseTime))]
        else []) ++ [[]])))) := by
    rw [sendRequestIP_lines rip, splitLines_encodeLines _ (requestLines_wf rip hc)]
    rfl
  rw [roundtripRequestIP, hsplit]
  have hp0 := kvNext_step_pair
    (newKVParser ("request_ip=1".data ::
      (rip.ipv4.elim [] (fun n => [("ipv4=".data ++ ipnetString n)]) ++
      (rip.ipv6.elim [] (fun n => [("ipv6=".data ++ ipnetString n)]) ++
      ((if isZeroTime rip.leaseStart then []
        else [("leasestart=".data ++ itoa (unixOf rip.leaseStart))]) ++
      ((if rip.leaseTime > 0 then [("leasetime=".data ++ itoa (durSeconds rip.leaseTime))]
        else []) ++ [[]]))))) none)
    "request_ip=1".data
    (rip.ipv4.elim [] (fun n => [("ipv4=".data ++ ipnetString n)]) ++
      (rip.ipv6.elim [] (fun n => [("ipv6=".data ++ ipnetString n)]) ++
      ((if isZeroTime rip.leaseStart then []
        else [("leasestart=".data ++ itoa (unixOf rip.leaseStart))]) ++
      ((if rip.leaseTime > 0 then [("leasetime=".data ++ itoa (durSeconds rip.leaseTime))]
        else []) ++ [[]]))))
    "request_ip".data "1".data rfl (by decide) (by decide) (by decide)
  rw [parseStart, hp0]
  dsimp only
  rw [parseRequestIP_canonical rip hc _ rfl rfl rfl rfl]

theorem claim_C1_witness :
    canonicalRequestIP ⟨some ⟨[192, 0, 2, 0], [255, 255, 255, 0]⟩, none,
      timeUnix 5 0, 7000000000⟩ = true ∧
    roundtripRequestIP ⟨some ⟨[192, 0, 2, 0], [255, 255, 255, 0]⟩, none,
      timeUnix 5 0, 7000000000⟩ =
      some ⟨some ⟨[192, 0, 2, 0], [255, 255, 255, 0]⟩, none, timeUnix 5 0, 7000000000⟩ :=
  ⟨by decide, claim_C1_amended _ (by decide)⟩

end Wgdynamic
